import Mathlib

/-!
Verification of the Agentic-bot honeypot engine: a shallow embedding in Lean 4
of the deduplicating intelligence extractor, the regex safety net, the session
confidence update, the conversation state machine, the rule-based scam
detector, the canned-reply fallback and the LLM fallback-chain budget loop,
with theorems settling the specification claims about them.

Conventions of the embedding:
- Python floats are modelled as rationals; the rounding in the code only ever
  applies to values that are exact multiples of 1/10000, where float and
  rational rounding agree.
- Python strings are ASCII in every input considered here, so `str.lower`,
  `str.strip`, the `\w`, `\s`, `\d` regex classes and `str.isupper` are
  modelled by their ASCII counterparts.
- `re` patterns are embedded through a small backtracking matcher (`matRE`)
  with Python's preference order: alternation tries the left branch first and
  repetition is greedy.  The matcher carries a fuel argument that strictly
  bounds the recursion depth; the fuel supplied by `findIter` exceeds any
  depth reachable on the pattern and subject sizes used here.
-/

/-! ## A small regex engine (Python `re` semantics on ASCII input) -/

/-- Abstract syntax of the regular expressions used by the program:
character classes, concatenation, prioritised alternation, greedy star,
word boundary, lookarounds, one-character negative lookbehind, and `$`. -/
inductive RE where
  | eps : RE
  | cls : (Char → Bool) → RE
  | seq : RE → RE → RE
  | alt : RE → RE → RE
  | star : RE → RE
  | bound : RE
  | negAhead : RE → RE
  | posAhead : RE → RE
  | negBehind : (Char → Bool) → RE
  | endAnchor : RE

/-- Word characters for the `\b` and `\w` classes (ASCII). -/
def isWordChar (c : Char) : Bool := c.isAlphanum || c == '_'

/-- Whitespace for the `\s` class (ASCII part of Python's set). -/
def wsChar (c : Char) : Bool :=
  c == ' ' || c == '\t' || c == '\n' || c == '\r' || c == '\x0b' || c == '\x0c'

/-- Character of the subject at a position, if any. -/
def charAt (s : List Char) (i : Nat) : Option Char := s.get? i

/-- Whether the character before position `i` is a word character. -/
def prevIsWord (s : List Char) : Nat → Bool
  | 0 => false
  | j + 1 =>
    match charAt s j with
    | some c => isWordChar c
    | none => false

/-- Whether position `i` is a `\b` word boundary of the subject. -/
def atBound (s : List Char) (i : Nat) : Bool :=
  let cur :=
    match charAt s i with
    | some c => isWordChar c
    | none => false
  prevIsWord s i != cur

/-- Backtracking matcher in continuation-passing style.  `matRE s fuel r i k`
tries to match `r` at position `i` of `s` and calls `k` on every candidate end
position in Python's preference order, returning the first success.  The fuel
bounds recursion depth only; all uses supply more than enough. -/
def matRE (s : List Char) : Nat → RE → Nat → (Nat → Option Nat) → Option Nat
  | 0, _, _, _ => none
  | fuel + 1, r, i, k =>
    match r with
    | .eps => k i
    | .cls p =>
      match charAt s i with
      | some c => if p c then k (i + 1) else none
      | none => none
    | .seq a b => matRE s fuel a i (fun j => matRE s fuel b j k)
    | .alt a b =>
      match matRE s fuel a i k with
      | some e => some e
      | none => matRE s fuel b i k
    | .star a =>
      match matRE s fuel a i (fun j => if j = i then none else matRE s fuel (.star a) j k) with
      | some e => some e
      | none => k i
    | .bound => if atBound s i then k i else none
    | .negAhead a =>
      match matRE s fuel a i some with
      | some _ => none
      | none => k i
    | .posAhead a =>
      match matRE s fuel a i some with
      | some _ => k i
      | none => none
    | .negBehind p =>
      match i with
      | 0 => k i
      | j + 1 =>
        match charAt s j with
        | some c => if p c then none else k i
        | none => k i
    | .endAnchor => if i = s.length then k i else none

/-- Fuel that exceeds any recursion depth reachable on our patterns. -/
def matchFuel (s : List Char) : Nat := 40 * s.length + 2000

/-- One match attempt at position `i`, returning the end position. -/
def matchAt (r : RE) (s : List Char) (i : Nat) : Option Nat :=
  matRE s (matchFuel s) r i some

/-- Scan for non-overlapping matches from position `i` on, like
`re.finditer`: leftmost match first, resuming after each match. -/
def findFrom (r : RE) (s : List Char) : Nat → Nat → List (Nat × Nat)
  | 0, _ => []
  | fuel + 1, i =>
    if i ≤ s.length then
      match matchAt r s i with
      | some j => (i, j) :: findFrom r s fuel (if i < j then j else i + 1)
      | none => findFrom r s fuel (i + 1)
    else []

/-- All non-overlapping matches of `r` in `s` as (start, end) pairs. -/
def findIter (r : RE) (s : List Char) : List (Nat × Nat) :=
  findFrom r s (s.length + 2) 0

/-- `re.search` as a Boolean: does `r` match anywhere in `s`? -/
def reTest (r : RE) (s : List Char) : Bool := !(findIter r s).isEmpty

/-! ### Pattern building blocks -/

/-- Single literal character. -/
def chrRE (c : Char) : RE := .cls (fun x => x == c)

/-- Single literal character, case-insensitive (`re.I`). -/
def chrREI (c : Char) : RE := .cls (fun x => x.toLower == c.toLower)

/-- Concatenation of a list of expressions. -/
def reCat : List RE → RE
  | [] => .eps
  | r :: rest => .seq r (reCat rest)

/-- Literal string. -/
def strRE (t : String) : RE := reCat (t.toList.map chrRE)

/-- Literal string, case-insensitive. -/
def strREI (t : String) : RE := reCat (t.toList.map chrREI)

/-- Alternation of a list, preferring earlier entries; empty list never
matches (used nowhere on an empty list). -/
def altRE : List RE → RE
  | [] => .negAhead .eps
  | [r] => r
  | r :: rest => .alt r (altRE rest)

/-- `r{n}`: exactly `n` copies. -/
def nTimes (r : RE) : Nat → RE
  | 0 => .eps
  | n + 1 => .seq r (nTimes r n)

/-- Up to `n` copies, greedy (more copies preferred). -/
def upToGreedy (r : RE) : Nat → RE
  | 0 => .eps
  | n + 1 => .alt (.seq r (upToGreedy r n)) .eps

/-- `r{m,n}`: between `m` and `n` copies, greedy. -/
def repRange (r : RE) (m n : Nat) : RE := .seq (nTimes r m) (upToGreedy r (n - m))

/-- `r{m,}`: at least `m` copies, greedy. -/
def atLeast (r : RE) (m : Nat) : RE := .seq (nTimes r m) (.star r)

/-- `r+`, greedy. -/
def plusRE (r : RE) : RE := atLeast r 1

/-- `r?`, greedy. -/
def optRE (r : RE) : RE := .alt r .eps

/-- `\d`. -/
def digitC : RE := .cls Char.isDigit

/-- `[a-zA-Z]`. -/
def alphaC : RE := .cls Char.isAlpha

/-- `.` (any character but newline). -/
def dotC : RE := .cls (fun c => c != '\n')

/-- `\S`. -/
def nonWsC : RE := .cls (fun c => !wsChar c)

/-- `\w` (ASCII). -/
def wordC : RE := .cls isWordChar

/-! ## Safety-net extraction patterns (api/index.py `_SAFETY_PATTERNS`) -/

/-- `[a-zA-Z0-9._%+-]+@[a-zA-Z0-9.-]+\.[a-zA-Z]{2,}` (`_EMAIL_PATTERN`). -/
def emailRE : RE :=
  reCat
    [plusRE (.cls fun c => c.isAlphanum || c == '.' || c == '_' || c == '%' || c == '+' || c == '-'),
     chrRE '@',
     plusRE (.cls fun c => c.isAlphanum || c == '.' || c == '-'),
     chrRE '.',
     atLeast alphaC 2]

/-- `[\s\-.]` separator class of the phone pattern. -/
def phoneSep : RE := .cls fun c => wsChar c || c == '-' || c == '.'

/-- `[6-9]`. -/
def sixNine : RE := .cls fun c => '6' ≤ c && c ≤ '9'

/-- `_PHONE_PATTERN`: the five alternatives for Indian phone formats, in the
source's order. -/
def phoneRE : RE :=
  altRE
    [reCat [strRE "+91", optRE phoneSep, nTimes digitC 5, optRE phoneSep, nTimes digitC 5],
     reCat [strRE "+91", optRE phoneSep, nTimes digitC 10],
     reCat [.negBehind Char.isDigit, optRE (chrRE '0'), strRE "91", optRE phoneSep,
            sixNine, nTimes digitC 9, .negAhead digitC],
     reCat [.bound, sixNine, nTimes digitC 4, .cls (fun c => wsChar c || c == '-'),
            nTimes digitC 5, .bound],
     reCat [.bound, sixNine, nTimes digitC 9, .bound]]

/-- `[a-zA-Z0-9._-]+@[a-zA-Z0-9_-]+\b(?!\.[a-zA-Z]{2,})` (UPI handles). -/
def upiRE : RE :=
  reCat
    [plusRE (.cls fun c => c.isAlphanum || c == '.' || c == '_' || c == '-'),
     chrRE '@',
     plusRE (.cls fun c => c.isAlphanum || c == '_' || c == '-'),
     .bound,
     .negAhead (reCat [chrRE '.', atLeast alphaC 2])]

/-- `\b\d{11,18}\b` (bank account candidates). -/
def bankRE : RE := reCat [.bound, repRange digitC 11 18, .bound]

/-- `[^\s<>"']` for URL tails. -/
def urlTailC : RE := .cls fun c => !(wsChar c || c == '<' || c == '>' || c == '"' || c == '\x27')

/-- `https?://[^\s<>"']+|\b(?:bit\.ly|tinyurl\.com|goo\.gl|t\.co|is\.gd|rb\.gy)/[^\s<>"']+`. -/
def urlRE : RE :=
  .alt
    (reCat [strREI "http", optRE (chrREI 's'), strRE "://", plusRE urlTailC])
    (reCat [.bound,
            altRE [strREI "bit.ly", strREI "tinyurl.com", strREI "goo.gl",
                   strREI "t.co", strREI "is.gd", strREI "rb.gy"],
            chrRE '/', plusRE urlTailC])

/-- `\b[A-Z]{4}0[A-Z0-9]{6}\b` (IFSC, case-sensitive). -/
def ifscRE : RE :=
  reCat [.bound, nTimes (.cls Char.isUpper) 4, chrRE '0',
         nTimes (.cls fun c => c.isUpper || c.isDigit) 6, .bound]

/-- `\b[A-Z]{5}\d{4}[A-Z]\b` (PAN card, case-sensitive). -/
def panRE : RE :=
  reCat [.bound, nTimes (.cls Char.isUpper) 5, nTimes digitC 4, .cls Char.isUpper, .bound]

/-- `[:\-#/\s]` separator after a reference keyword. -/
def refSep : RE := .cls fun c => c == ':' || c == '-' || c == '#' || c == '/' || wsChar c

/-- `[A-Z0-9]` under `re.I`, i.e. any ASCII alphanumeric. -/
def alnumC : RE := .cls Char.isAlphanum

/-- Shared tail of the keyword-prefixed ID patterns:
`[:\-#/\s]\s*(?=\S*\d)[A-Z0-9]<body>{2,}\b` where `body` is the pattern's
word-character class. -/
def idTail (body : RE) : RE :=
  reCat [refSep, .star (.cls wsChar),
         .posAhead (reCat [.star nonWsC, digitC]),
         alnumC, atLeast body 2, .bound]

/-- Keyword-prefixed case/reference IDs (second `case_id` pattern). -/
def caseKwRE : RE :=
  reCat [.bound,
         altRE (["REF", "CASE", "FIR", "TICKET", "TKT", "CBI", "COMPLAINT", "CR",
                 "ID", "UTR", "IMPS", "NEFT", "RTGS"].map strREI),
         idTail (.cls fun c => isWordChar c || c == '-' || c == '/')]

/-- Keyword-prefixed policy numbers. -/
def policyRE : RE :=
  reCat [.bound,
         altRE (["POL", "POLICY", "INS", "PLAN", "LIC", "CLAIM"].map strREI),
         idTail (.cls fun c => isWordChar c || c == '-')]

/-- Keyword-prefixed order/tracking numbers. -/
def orderRE : RE :=
  reCat [.bound,
         altRE (["ORD", "ORDER", "AWB", "TXN", "AMZ", "TRACK", "INV", "SHIP",
                 "DL", "CONSIGNMENT"].map strREI),
         idTail (.cls fun c => isWordChar c || c == '-')]

/-- `(?:rs\.?|inr|₹|rupee|amount|fee|charge|price|cost)\s*$`, searched in the
lowercased 15-character window before a bank-account candidate. -/
def amountCtxRE : RE :=
  reCat [altRE [reCat [strRE "rs", optRE (chrRE '.')], strRE "inr", strRE "₹",
                strRE "rupee", strRE "amount", strRE "fee", strRE "charge",
                strRE "price", strRE "cost"],
         .star (.cls wsChar), .endAnchor]

/-- The `_SAFETY_PATTERNS` table, in source order. -/
def SAFETY_PATTERNS : List (String × RE) :=
  [("phone", phoneRE),
   ("email", emailRE),
   ("upi", upiRE),
   ("bank_account", bankRE),
   ("url", urlRE),
   ("ifsc", ifscRE),
   ("case_id", panRE),
   ("case_id", caseKwRE),
   ("policy_number", policyRE),
   ("order_number", orderRE)]

/-! ## Safety-net extraction (`_safety_extract`) -/

/-- One extracted intelligence item (`{"type": ..., "value": ..., "confidence": ...}`). -/
structure IntelItem where
  type : String
  value : String
  confidence : ℚ
deriving DecidableEq, Repr

/-- Python slice `s[a:b]`. -/
def sliceStr (s : List Char) (a b : Nat) : List Char := (s.take b).drop a

/-- Python `str.strip()` on ASCII whitespace. -/
def pyStrip (l : List Char) : List Char :=
  ((l.dropWhile wsChar).reverse.dropWhile wsChar).reverse

/-- Python `str.lower()` on ASCII. -/
def lowerL (l : List Char) : List Char := l.map Char.toLower

/-- Python `val.split("@")[-1]`: everything after the last `@` (the whole
string when there is no `@`). -/
def afterLastAt (l : List Char) : List Char :=
  (l.reverse.takeWhile (fun c => c != '@')).reverse

/-- Python `s[-n:]`: the last `n` elements (all of them when shorter). -/
def lastN (n : Nat) (l : List Char) : List Char := l.drop (l.length - n)

/-- `re.sub(r'\D', '', v)`: keep only the digits. -/
def digitsOf (l : List Char) : List Char := l.filter Char.isDigit

/-- The lowercased, stripped e-mail matches of a message, collected first so
UPI candidates can be excluded against them. -/
def emailMatchesOf (s : List Char) : List (List Char) :=
  (findIter emailRE s).map fun m => lowerL (pyStrip (sliceStr s m.1 m.2))

/-- The last ten digits of every phone match of a message, collected so
bank-account candidates can be excluded against them. -/
def phoneDigitsOf (s : List Char) : List (List Char) :=
  (findIter phoneRE s).map fun m => lastN 10 (digitsOf (sliceStr s m.1 m.2))

/-- The exclusion filter of `_safety_extract`: a UPI candidate is dropped
when its domain part contains a dot or it is a prefix of a found e-mail; a
bank-account candidate is dropped when its last ten digits equal a phone
match or amount vocabulary ends the 15-character window before it. -/
def safetyKeep (s : List Char) (tp : String) (m : Nat × Nat) : Bool :=
  if tp = "upi" then
    if (afterLastAt (pyStrip (sliceStr s m.1 m.2))).contains '.' then false
    else !(emailMatchesOf s).any fun em => (lowerL (pyStrip (sliceStr s m.1 m.2))).isPrefixOf em
  else if tp = "bank_account" then
    if (phoneDigitsOf s).contains (lastN 10 (digitsOf (pyStrip (sliceStr s m.1 m.2)))) then false
    else !reTest amountCtxRE (lowerL (sliceStr s (m.1 - 15) m.1))
  else true

/-- One candidate match turned into an item (or dropped by the filter). -/
def safetyItem (s : List Char) (tp : String) (m : Nat × Nat) : Option IntelItem :=
  if safetyKeep s tp m then some ⟨tp, String.mk (pyStrip (sliceStr s m.1 m.2)), 3 / 4⟩ else none

/-- `_safety_extract`: run every safety pattern over the message, excluding
UPI candidates that are e-mails or prefixes of found e-mails, and
bank-account candidates that share their last ten digits with a phone match
or follow amount vocabulary within a 15-character window. -/
def safetyExtract (message : String) : List IntelItem :=
  SAFETY_PATTERNS.foldl
    (fun acc pat => acc ++ (findIter pat.2 message.toList).filterMap (safetyItem message.toList pat.1))
    []

/-! ## Per-session intelligence deduplication (api/index.py `_dedup_intel`) -/

/-- Dedup key of an item: `f"{type}:{str(value).lower()}"`. -/
def itemKey (it : IntelItem) : String :=
  it.type ++ ":" ++ String.mk (lowerL it.value.toList)

/-- The inner loop of `_dedup_intel` on one session's seen-key set:
an item is kept (and its key recorded) only when its key is unseen and its
value is non-empty.  Returns the grown seen set and the kept items. -/
def dedupCore : List String → List IntelItem → List String × List IntelItem
  | seen, [] => (seen, [])
  | seen, it :: rest =>
    if itemKey it ∉ seen ∧ it.value ≠ "" then
      ((dedupCore (itemKey it :: seen) rest).1, it :: (dedupCore (itemKey it :: seen) rest).2)
    else dedupCore seen rest

/-- The global `_seen_intel` mapping, insertion-ordered like a Python dict. -/
abbrev SeenMap := List (String × List String)

/-- `_MAX_TRACKED_SESSIONS`. -/
def MAX_TRACKED_SESSIONS : Nat := 500

/-- The eviction prologue of `_dedup_intel`: when more than the cap is
tracked, drop the oldest entries down to the cap. -/
def evictSeen (m : SeenMap) : SeenMap :=
  if m.length > MAX_TRACKED_SESSIONS then m.drop (m.length - MAX_TRACKED_SESSIONS) else m

/-- Seen-key set of one session (empty when untracked). -/
def seenLookup (m : SeenMap) (sid : String) : List String :=
  match m.find? (fun p => p.1 == sid) with
  | some p => p.2
  | none => []

/-- Whether a session is tracked. -/
def hasSession (m : SeenMap) (sid : String) : Bool := m.any (fun p => p.1 == sid)

/-- `dict.setdefault(session_id, set())`: insert an empty set at the end
when the session is untracked. -/
def setdefaultSeen (m : SeenMap) (sid : String) : SeenMap :=
  if hasSession m sid then m else m ++ [(sid, [])]

/-- Store a session's (mutated) seen set back. -/
def storeSeen (m : SeenMap) (sid : String) (v : List String) : SeenMap :=
  m.map fun p => if p.1 == sid then (sid, v) else p

/-- `_dedup_intel(items, session_id)` acting on the global seen map:
evict, setdefault, then run the dedup loop on the session's set. -/
def dedupIntel (m : SeenMap) (sid : String) (items : List IntelItem) :
    SeenMap × List IntelItem :=
  (storeSeen (setdefaultSeen (evictSeen m) sid) sid
      (dedupCore (seenLookup (setdefaultSeen (evictSeen m) sid) sid) items).1,
   (dedupCore (seenLookup (setdefaultSeen (evictSeen m) sid) sid) items).2)

/-- The per-session accumulated intelligence lists (`sessions[sid]["intelligence"]`;
the `sessions` dict is never evicted by the core). -/
abbrev IntelMap := List (String × List IntelItem)

/-- Accumulated intelligence of one session. -/
def intelLookup (m : IntelMap) (sid : String) : List IntelItem :=
  match m.find? (fun p => p.1 == sid) with
  | some p => p.2
  | none => []

/-- `session["intelligence"].extend(items)` (creating the session on first use,
as `get_session` does). -/
def intelExtend (m : IntelMap) (sid : String) (items : List IntelItem) : IntelMap :=
  if m.any (fun p => p.1 == sid) then
    m.map fun p => if p.1 == sid then (sid, p.2 ++ items) else p
  else m ++ [(sid, items)]

/-- Global state of the dedup machinery: the seen-key map and the per-session
intelligence lists. -/
structure GState where
  seenMap : SeenMap
  intelMap : IntelMap
deriving DecidableEq, Repr

/-- Initial global state. -/
def gInit : GState := ⟨[], []⟩

/-- One extraction batch for a session: deduplicate against the session's
seen keys and append the survivors to the session's intelligence, exactly as
every `_dedup_intel` + `extend` pair in `_honeypot_core` does. -/
def processBatch (g : GState) (sid : String) (items : List IntelItem) : GState :=
  ⟨(dedupIntel g.seenMap sid items).1,
   intelExtend g.intelMap sid (dedupIntel g.seenMap sid items).2⟩

/-- Run a sequence of extraction batches (possibly for many sessions) from a
given state. -/
def runBatchesFrom (g : GState) (reqs : List (String × List IntelItem)) : GState :=
  reqs.foldl (fun g r => processBatch g r.1 r.2) g

/-- Run a sequence of extraction batches from the initial state. -/
def runBatches (reqs : List (String × List IntelItem)) : GState :=
  runBatchesFrom gInit reqs

/-- A conversation message as carried in request history. -/
structure HMsg where
  sender : String
  text : String
deriving DecidableEq, Repr

/-- The safety-net side of one `_honeypot_core` turn (steps 2b and 2c):
safety-extract the current message, then re-extract from every scammer
message of the supplied history, each batch merged through the session's
dedup set. -/
def extractionPass (g : GState) (sid : String) (message : String)
    (history : List HMsg) : GState :=
  history.foldl
    (fun g m => if m.sender == "scammer" then processBatch g sid (safetyExtract m.text) else g)
    (processBatch g sid (safetyExtract message))

/-- Run a list of batches all for one session (used to reason about a pass). -/
def runSess (g : GState) (sid : String) : List (List IntelItem) → GState
  | [] => g
  | b :: bs => runSess (processBatch g sid b) sid bs

/-- The batches an extraction pass feeds through the dedup set, in order. -/
def passBatches (message : String) (history : List HMsg) : List (List IntelItem) :=
  safetyExtract message ::
    (history.filter (fun m => m.sender == "scammer")).map (fun m => safetyExtract m.text)

/-! ## Session classification update (api/index.py `_honeypot_core` step 3) -/

/-- The per-turn outputs that feed the session update. -/
structure TurnData where
  message : String
  reply : String
  confidence : ℚ
  scamType : String

/-- The session fields mutated by one successfully processed turn. -/
structure SessionState where
  scamConfidence : ℚ
  scamType : String
  history : List HMsg
  turnCount : Nat

/-- Fresh session as created by `get_session`. -/
def freshSession : SessionState := ⟨0, "unknown", [], 0⟩

/-- Step 3 of `_honeypot_core` (same update as app/main.py): confidence is
folded in through `max`, the scam type is overwritten by any non-generic
classification, the two messages are appended and the turn counter bumps. -/
def applyTurn (s : SessionState) (t : TurnData) : SessionState :=
  { scamConfidence := max s.scamConfidence t.confidence
    scamType :=
      if t.scamType ≠ "generic" then t.scamType
      else if s.scamType = "unknown" then t.scamType
      else s.scamType
    history := s.history ++ [⟨"scammer", t.message⟩, ⟨"agent", t.reply⟩]
    turnCount := s.turnCount + 1 }

/-- Session confidence after the first `n` turns of a run. -/
def confAfter (s : SessionState) (turns : List TurnData) (n : Nat) : ℚ :=
  ((turns.take n).foldl applyTurn s).scamConfidence

/-! ## Conversation state machine (app/state/machine.py) -/

/-- The nine conversation states. -/
inductive MState where
  | INITIAL
  | GREETING
  | BUILDING_RAPPORT
  | FINANCIAL_CONTEXT
  | REQUEST
  | EXTRACTION
  | SUSPICIOUS
  | CLOSING
  | ENDED
deriving DecidableEq, Repr

/-- `STATE_CONFIGS[state]["max_turns"]`. -/
def maxTurnsOf : MState → Nat
  | .INITIAL => 1
  | .GREETING => 3
  | .BUILDING_RAPPORT => 5
  | .FINANCIAL_CONTEXT => 5
  | .REQUEST => 3
  | .EXTRACTION => 15
  | .SUSPICIOUS => 3
  | .CLOSING => 2
  | .ENDED => 0

/-- `STATE_CONFIGS[state]["next"]`: the declared successor lists. -/
def nextStatesOf : MState → List MState
  | .INITIAL => [.GREETING]
  | .GREETING => [.BUILDING_RAPPORT, .FINANCIAL_CONTEXT]
  | .BUILDING_RAPPORT => [.FINANCIAL_CONTEXT, .REQUEST]
  | .FINANCIAL_CONTEXT => [.REQUEST, .EXTRACTION]
  | .REQUEST => [.EXTRACTION, .SUSPICIOUS]
  | .EXTRACTION => [.CLOSING, .SUSPICIOUS]
  | .SUSPICIOUS => [.EXTRACTION, .CLOSING, .ENDED]
  | .CLOSING => [.ENDED]
  | .ENDED => []

/-- One recorded transition (`self.history` entries). -/
structure TransRec where
  src : MState
  dst : MState
  turn : Nat
  reason : String
deriving DecidableEq, Repr

/-- The `StateMachine` object state. -/
structure Machine where
  currentState : MState
  turnCount : Nat
  stateTurnCount : Nat
  history : List TransRec
deriving Repr

/-- A freshly constructed `StateMachine`. -/
def initMachine : Machine := ⟨.INITIAL, 0, 0, []⟩

/-- The arguments of `StateMachine.transition`. -/
structure TransInput where
  scamConfidence : ℚ
  hasFinancialContext : Bool
  hasDirectRequest : Bool
  extractionProgress : ℚ
  scammerTerminated : Bool

/-- `TransitionResult`. -/
structure TransResult where
  nextState : MState
  shouldEnd : Bool
  reason : String
deriving DecidableEq, Repr

/-- `StateMachine._do_transition`. -/
def doTransition (m : Machine) (ns : MState) (reason : String) : Machine :=
  { m with
    history := m.history ++ [⟨m.currentState, ns, m.turnCount, reason⟩]
    currentState := ns
    stateTurnCount := 0 }

/-- `StateMachine.transition`: bump both counters, answer immediately from
ENDED, honour a termination signal, otherwise run the per-state rule chain
and record a transition when the state changes. -/
def transition (m0 : Machine) (inp : TransInput) : Machine × TransResult :=
  let m := { m0 with turnCount := m0.turnCount + 1, stateTurnCount := m0.stateTurnCount + 1 }
  let current := m.currentState
  if current = .ENDED then (m, ⟨.ENDED, true, "Conversation ended"⟩)
  else if inp.scammerTerminated then
    (doTransition m .ENDED "Scammer terminated", ⟨.ENDED, true, "Scammer terminated"⟩)
  else
    let nr : MState × String :=
      match current with
      | .INITIAL => (.GREETING, "Initial classification done")
      | .GREETING =>
        if inp.hasFinancialContext || inp.hasDirectRequest then
          (.FINANCIAL_CONTEXT, "Financial context detected early")
        else if m.stateTurnCount ≥ maxTurnsOf current then
          (.BUILDING_RAPPORT, "Max greeting turns reached")
        else (current, "No transition needed")
      | .BUILDING_RAPPORT =>
        if inp.hasDirectRequest then (.REQUEST, "Direct request received")
        else if inp.hasFinancialContext || m.stateTurnCount ≥ maxTurnsOf current then
          (.FINANCIAL_CONTEXT, "Financial context detected or max turns")
        else (current, "No transition needed")
      | .FINANCIAL_CONTEXT =>
        if inp.hasDirectRequest then (.REQUEST, "Direct request received")
        else if m.stateTurnCount ≥ maxTurnsOf current then
          (.REQUEST, "Max turns, moving to request")
        else (current, "No transition needed")
      | .REQUEST =>
        if m.stateTurnCount ≥ maxTurnsOf current then
          (.EXTRACTION, "Moving to extraction phase")
        else (current, "No transition needed")
      | .EXTRACTION =>
        if inp.extractionProgress ≥ 9/10 ∧ m.turnCount ≥ 12 then
          (.CLOSING, "Extraction targets met")
        else if m.stateTurnCount ≥ maxTurnsOf current then
          (.CLOSING, "Max extraction turns reached")
        else (current, "No transition needed")
      | .SUSPICIOUS =>
        if m.stateTurnCount ≥ maxTurnsOf current then
          (.CLOSING, "Could not recover from suspicion")
        else (.EXTRACTION, "Recovery attempt")
      | .CLOSING =>
        if m.stateTurnCount ≥ maxTurnsOf current then (.ENDED, "Closing complete")
        else (current, "No transition needed")
      | .ENDED => (current, "No transition needed")
    let m2 := if nr.1 ≠ current then doTransition m nr.1 nr.2 else m
    (m2, ⟨m2.currentState, m2.currentState == .ENDED, nr.2⟩)

/-- Run the machine from its initial state over a list of inputs. -/
def runMachine (inputs : List TransInput) : Machine :=
  inputs.foldl (fun m i => (transition m i).1) initMachine

/-! ## Scam detector (app/detection/scam_detector.py) -/

/-- One `ScamIndicator`: an embedded pattern, its weight, category tag and
urgency flag (the cosmetic `matched` display slice of the pattern source is
not modelled). -/
structure ScamIndicator where
  pattern : RE
  weight : ℚ
  category : String
  urgencyBoost : Bool

/-- `SCAM_PATTERNS`, each regex transcribed with its `re.I` flag, in source
order. -/
def DET_PATTERNS : List ScamIndicator :=
  [ -- urgency
   ⟨altRE [strREI "urgent", strREI "immediately",
           reCat [strREI "within ", plusRE digitC, chrRE ' ',
                  .alt (reCat [strREI "hour", optRE (chrREI 's')])
                       (reCat [strREI "minute", optRE (chrREI 's')])],
           strREI "right now"], 18/100, "urgency", true⟩,
   ⟨altRE [strREI "act now",
           reCat [strREI "don", optRE (chrRE '\x27'), strREI "t delay"],
           reCat [strREI "time ", .alt (strREI "is") (strREI "was"), strREI " running"],
           strREI "last chance", strREI "final warning"], 15/100, "urgency", true⟩,
   ⟨altRE [reCat [strREI "expir", altRE [strREI "e", strREI "ing", strREI "ed"]],
           strREI "deadline", strREI "limited time", strREI "hurry", strREI "asap"],
    12/100, "urgency", true⟩,
   -- authority
   ⟨reCat [altRE [strREI "bank", strREI "rbi", strREI "sebi", strREI "income tax",
                  strREI "police", strREI "court", strREI "government"],
           .star (.cls wsChar),
           altRE [strREI "manager", strREI "official", strREI "officer", strREI "department"]],
    20/100, "authority", false⟩,
   ⟨reCat [altRE [strREI "sbi", strREI "hdfc", strREI "icici", strREI "axis",
                  strREI "kotak", strREI "pnb", strREI "bob", strREI "canara", strREI "union"],
           .star (.cls wsChar), optRE (strREI "bank")], 12/100, "authority", false⟩,
   ⟨reCat [strREI "your ",
           altRE [strREI "account", strREI "number", strREI "card", strREI "kyc",
                  strREI "pan", strREI "aadhaar"],
           chrRE ' ',
           altRE [strREI "is", strREI "has been", strREI "will be"]],
    15/100, "authority", true⟩,
   ⟨reCat [strREI "dear ",
           altRE [strREI "customer", strREI "user", strREI "sir", strREI "madam", strREI "valued"]],
    10/100, "authority", false⟩,
   -- financial
   ⟨reCat [strREI "send ",
           altRE [strREI "money", strREI "amount", strREI "payment", strREI "fund",
                  reCat [strREI "rs", optRE (chrRE '.')], strREI "₹"]],
    20/100, "financial", true⟩,
   ⟨altRE [reCat [strREI "transfer ", altRE [strREI "to", strREI "into", strREI "amount"]],
           strREI "wire", strREI "remittance"], 18/100, "financial", false⟩,
   ⟨reCat [altRE [strREI "processing", strREI "activation", strREI "registration",
                  strREI "delivery", strREI "customs"], strREI " fee"],
    18/100, "financial", true⟩,
   ⟨reCat [strREI "pay ",
           optRE (altRE [reCat [strREI "rs", optRE (chrRE '.')], strREI "₹", strREI "inr"]),
           .star (.cls wsChar), plusRE digitC], 20/100, "financial", true⟩,
   ⟨altRE [reCat [strREI "upi", repRange dotC 0 5,
                  altRE [strREI "id", strREI "transfer", strREI "pay", strREI "send"]],
           reCat [chrRE '@',
                  altRE [strREI "upi", strREI "ybl", strREI "paytm", strREI "okaxis",
                         strREI "oksbi", strREI "apl", strREI "ibl"]]],
    18/100, "financial", false⟩,
   -- verification
   ⟨reCat [strREI "verify your ",
           altRE [strREI "account", strREI "identity", strREI "details", strREI "kyc",
                  strREI "pan", strREI "aadhaar"]], 16/100, "verification", true⟩,
   ⟨reCat [strREI "kyc", repRange dotC 0 10,
           altRE [strREI "update", strREI "expir", strREI "pending",
                  strREI "incomplete", strREI "mandatory"]], 18/100, "verification", true⟩,
   ⟨reCat [altRE [strREI "update", strREI "confirm", strREI "share", strREI "send"],
           strREI " your ",
           altRE [strREI "details", strREI "otp", strREI "pin", strREI "password", strREI "cvv"]],
    20/100, "verification", true⟩,
   -- otp fraud
   ⟨reCat [altRE [strREI "share", strREI "send", strREI "tell", strREI "provide", strREI "enter"],
           repRange dotC 0 15,
           altRE [strREI "otp", strREI "pin", strREI "cvv", strREI "password", strREI "mpin"]],
    22/100, "otp_fraud", true⟩,
   ⟨reCat [strREI "otp", repRange dotC 0 10,
           altRE [strREI "sent", strREI "received", strREI "generated", strREI "code"]],
    15/100, "otp_fraud", false⟩,
   -- lottery
   ⟨reCat [altRE [strREI "won", strREI "winner", strREI "selected", strREI "chosen"],
           repRange dotC 0 20,
           altRE [strREI "prize", strREI "lottery", strREI "reward", strREI "cashback", strREI "gift"]],
    18/100, "lottery", true⟩,
   ⟨altRE [strREI "congratulat",
           reCat [strREI "lucky ", altRE [strREI "winner", strREI "number", strREI "draw"]],
           strREI "jackpot"], 16/100, "lottery", true⟩,
   ⟨altRE [reCat [strREI "claim ",
                  altRE [strREI "your", strREI "now", strREI "prize", strREI "reward"]],
           strREI "redeem"], 14/100, "lottery", true⟩,
   ⟨reCat [altRE [reCat [strREI "rs", optRE (chrRE '.')], strREI "₹", strREI "inr"],
           .star (.cls wsChar), plusRE digitC, .star (.cls wsChar),
           altRE [strREI "lakh", strREI "crore", strREI "lakhs", strREI "crores"]],
    12/100, "lottery", false⟩,
   -- job scam
   ⟨altRE [strREI "work from home",
           reCat [strREI "earn", repRange dotC 0 15,
                  altRE [strREI "daily", strREI "weekly", strREI "monthly"]],
           reCat [strREI "part", optRE dotC, strREI "time", repRange dotC 0 10,
                  altRE [strREI "job", strREI "income", strREI "earning"]]],
    14/100, "job_scam", true⟩,
   ⟨reCat [altRE [strREI "easy", strREI "quick", strREI "guaranteed", strREI "assured"],
           chrRE ' ',
           altRE [strREI "money", strREI "income", strREI "returns", strREI "profit"]],
    16/100, "job_scam", true⟩,
   ⟨altRE [strREI "registration fee", strREI "joining fee", strREI "training fee"],
    16/100, "job_scam", true⟩,
   -- investment
   ⟨reCat [altRE [strREI "invest", strREI "trading", strREI "forex", strREI "crypto",
                  strREI "bitcoin", strREI "mutual fund"],
           repRange dotC 0 15,
           altRE [strREI "guaranteed", strREI "assured", strREI "fixed", strREI "daily"],
           strREI " returns"], 18/100, "investment", true⟩,
   ⟨reCat [plusRE digitC, chrRE '%', .star (.cls wsChar),
           altRE [strREI "daily", strREI "weekly", strREI "monthly", strREI "annual"],
           .star (.cls wsChar),
           altRE [strREI "return", strREI "profit", strREI "income", strREI "interest"]],
    18/100, "investment", true⟩,
   -- threat
   ⟨reCat [altRE [strREI "account", strREI "number", strREI "card", strREI "sim"],
           repRange dotC 0 10,
           altRE [strREI "block", strREI "suspend", strREI "deactivat", strREI "freez", strREI "cancel"]],
    16/100, "threat", true⟩,
   ⟨altRE [reCat [strREI "legal ",
                  altRE [strREI "action", strREI "notice", strREI "proceedings"]],
           strREI "arrest warrant", strREI "fir", strREI "complaint"],
    18/100, "threat", true⟩,
   ⟨reCat [strREI "if you ",
           altRE [reCat [strREI "don", optRE (chrRE '\x27'), strREI "t"],
                  strREI "do not", strREI "fail to"]], 12/100, "threat", true⟩,
   -- phishing
   ⟨altRE [reCat [strREI "click ",
                  altRE [strREI "here", strREI "this", strREI "below", strREI "the link"]],
           reCat [strREI "tap ", altRE [strREI "here", strREI "this", strREI "below"]]],
    14/100, "phishing", false⟩,
   ⟨reCat [altRE [strREI "verify", strREI "update", strREI "confirm", strREI "login"],
           repRange dotC 0 10,
           altRE [strREI "link", strREI "url", strREI "website", strREI "page", strREI "portal"]],
    15/100, "phishing", false⟩,
   ⟨reCat [strREI "http", optRE (chrREI 's'), strRE "://", .star nonWsC, chrRE '.',
           altRE [strREI "tk", strREI "ml", strREI "ga", strREI "cf", strREI "gq",
                  strREI "xyz", strREI "top", strREI "buzz", strREI "club",
                  strREI "info", strREI "win"]], 18/100, "phishing", false⟩,
   ⟨altRE [strREI "bit.ly", strREI "tinyurl", strREI "short.io",
           strREI "rebrand.ly", strREI "is.gd"], 12/100, "phishing", false⟩]

/-- `HIGH_RISK_KEYWORDS`. -/
def HIGH_RISK_KEYWORDS : List String :=
  ["bitcoin", "ethereum", "crypto", "wallet", "private key",
   "gift card", "steam card", "amazon gift", "google play card",
   "western union", "moneygram", "wire transfer", "bank transfer",
   "account suspended", "verify identity", "confirm details",
   "processing fee", "activation fee", "delivery fee",
   "customs duty", "import tax", "clearance fee",
   "inheritance", "lottery winner", "beneficiary", "next of kin",
   "blocked account", "frozen account", "suspicious activity"]

/-- `MEDIUM_RISK_KEYWORDS`. -/
def MEDIUM_RISK_KEYWORDS : List String :=
  ["investment", "returns", "profit", "passive income",
   "opportunity", "business proposal", "partnership",
   "job offer", "work from home", "freelance", "weekly income",
   "prize", "winner", "selected", "lucky",
   "refund", "cashback", "bonus", "reward",
   "insurance claim", "policy", "maturity"]

/-- Accumulator of the rule-based pattern loop of `ScamDetector.analyze`. -/
structure PatternScan where
  score : ℚ
  cats : List (String × ℚ)
  hasUrgency : Bool
  indicators : List (String × ℚ)

/-- `matched_categories[cat] = matched_categories.get(cat, 0) + w` on an
insertion-ordered association list. -/
def catAdd (m : List (String × ℚ)) (cat : String) (w : ℚ) : List (String × ℚ) :=
  if m.any (fun p => p.1 == cat) then
    m.map fun p => if p.1 == cat then (p.1, p.2 + w) else p
  else m ++ [(cat, w)]

/-- Phase 1 of `analyze`: try every indicator on the message, accumulating
score, per-category weights, the urgency flag and the indicator list. -/
def patternScan (msg : List Char) : PatternScan :=
  DET_PATTERNS.foldl
    (fun st ind =>
      if reTest ind.pattern msg then
        { score := st.score + ind.weight
          cats := catAdd st.cats ind.category ind.weight
          hasUrgency := st.hasUrgency || ind.urgencyBoost
          indicators := st.indicators ++ [(ind.category, ind.weight)] }
      else st)
    ⟨0, [], false, []⟩

/-- Python `needle in hay` substring test. -/
def subOf (needle hay : List Char) : Bool :=
  hay.tails.any fun t => needle.isPrefixOf t

/-- Phase 2 of `analyze`: capped keyword score over the lowercased message. -/
def keywordScore (lowerMsg : List Char) : ℚ :=
  let hi := HIGH_RISK_KEYWORDS.foldl
    (fun sc kw => if subOf kw.toList lowerMsg then sc + 12/100 else sc) 0
  let both := MEDIUM_RISK_KEYWORDS.foldl
    (fun sc kw => if subOf kw.toList lowerMsg then sc + 6/100 else sc) hi
  min both 1

/-- `₹|rs\.?\s*\d|inr\s*\d|\d+\s*(lakh|crore)` (`re.I`). -/
def behavFinanceRE : RE :=
  altRE [strRE "₹",
         reCat [strREI "rs", optRE (chrRE '.'), .star (.cls wsChar), digitC],
         reCat [strREI "inr", .star (.cls wsChar), digitC],
         reCat [plusRE digitC, .star (.cls wsChar), .alt (strREI "lakh") (strREI "crore")]]

/-- `(send|share|tell|provide|give|transfer)` (`re.I`). -/
def directReqRE : RE :=
  altRE [strREI "send", strREI "share", strREI "tell",
         strREI "provide", strREI "give", strREI "transfer"]

/-- Python `str.isupper` on ASCII: at least one cased character, none of
them lowercase. -/
def pyIsUpper (l : List Char) : Bool :=
  l.any (fun c => c.isUpper || c.isLower) && l.all (fun c => !c.isLower)

/-- Accumulator of the behavioral phase. -/
structure BehavScan where
  score : ℚ
  hasFinancialContext : Bool
  hasDirectRequest : Bool

/-- Phase 3 of `analyze`: length, shouting, currency and direct-request
signals. -/
def behavioralScan (msg : List Char) : BehavScan :=
  let s1 : ℚ := if msg.length > 200 then 1/10 else 0
  let s2 : ℚ := if pyIsUpper msg || msg.count '!' > 2 then 1/10 else 0
  let fin := reTest behavFinanceRE msg
  let s3 : ℚ := if fin then 1/10 else 0
  let dir := reTest directReqRE msg
  let s4 : ℚ := if dir then 1/20 else 0
  ⟨s1 + s2 + s3 + s4, fin, dir⟩

/-- Python `l[-n:]`. -/
def lastK {α : Type} (n : Nat) (l : List α) : List α := l.drop (l.length - n)

/-- Phase 4 of `analyze`: down-weighted pattern score over the last five
history messages, capped at 1. -/
def historyScore (history : List (List Char)) : ℚ :=
  if history.isEmpty then 0
  else
    min ((lastK 5 history).foldl
      (fun sc prev =>
        DET_PATTERNS.foldl
          (fun sc ind => if reTest ind.pattern prev then sc + ind.weight * (4/10) else sc)
          sc)
      0) 1

/-- Python `round(x, 4)` (all values this is applied to here are exact
multiples of 1/10000, where float and rational rounding agree). -/
def round4 (q : ℚ) : ℚ := round (q * 10000) / 10000

/-- The default detector threshold (`ScamDetector(threshold=0.35)`). -/
def DETECTOR_THRESHOLD : ℚ := 35/100

/-- `TYPE_MAP` of `analyze`. -/
def TYPE_MAP : List (String × String) :=
  [("urgency", "generic"), ("authority", "bank_fraud"), ("financial", "upi_fraud"),
   ("verification", "kyc_scam"), ("otp_fraud", "otp_fraud"), ("lottery", "lottery_scam"),
   ("job_scam", "job_scam"), ("investment", "investment_scam"), ("threat", "threat_scam"),
   ("phishing", "phishing")]

/-- `TYPE_MAP.get(dominant, "generic")`. -/
def typeLookup (cat : String) : String :=
  match TYPE_MAP.find? (fun p => p.1 == cat) with
  | some p => p.2
  | none => "generic"

/-- Python `max(d, key=d.get)` on an insertion-ordered association list:
the first key of maximal value. -/
def maxCat : List (String × ℚ) → Option String
  | [] => none
  | p :: rest => some ((rest.foldl (fun best q => if q.2 > best.2 then q else best) p).1)

/-- `DetectionResult` (indicators carry category and weight). -/
structure DetectionResult where
  isScam : Bool
  confidence : ℚ
  scamType : String
  indicators : List (String × ℚ)
  urgencyLevel : String
  hasFinancialContext : Bool
  hasDirectRequest : Bool
deriving DecidableEq, Repr

/-- `ScamDetector.analyze`: combine the four phase scores with the fixed
0.50/0.25/0.15/0.10 weights, apply the 1.3 urgency boost above the 0.15
floor, round to four decimals, clamp at 1, then derive verdict, type and
urgency level. -/
def analyze (message : String) (history : List String) : DetectionResult :=
  let msg := message.toList
  let ps := patternScan msg
  let ks := keywordScore (lowerL msg)
  let bs := behavioralScan msg
  let hs := historyScore (history.map String.toList)
  let raw := ps.score * (50/100) + ks * (25/100) + bs.score * (15/100) + hs * (10/100)
  let boosted := if ps.hasUrgency ∧ raw > 15/100 then raw * (13/10) else raw
  let conf := min (round4 boosted) 1
  let scamType :=
    match maxCat ps.cats with
    | some c => typeLookup c
    | none => "unknown"
  let urgencyCount := (ps.indicators.filter (fun p => p.1 == "urgency")).length
  let ulevel :=
    if urgencyCount ≥ 3 then "critical"
    else if urgencyCount ≥ 2 then "high"
    else if urgencyCount ≥ 1 then "medium"
    else "low"
  ⟨decide (conf ≥ DETECTOR_THRESHOLD), conf, scamType, ps.indicators, ulevel,
   bs.hasFinancialContext, bs.hasDirectRequest⟩

/-- The confidence formula as the specification describes it with the
multi-category override removed: plain weighted sum, urgency boost, round,
clamp — no floor at 0.50 for three fired categories and no 1.15 multiplier
for two. -/
def confidenceNoOverride (message : String) (history : List String) : ℚ :=
  let msg := message.toList
  let ps := patternScan msg
  let raw := ps.score * (50/100) + keywordScore (lowerL msg) * (25/100)
    + (behavioralScan msg).score * (15/100) + historyScore (history.map String.toList) * (10/100)
  let boosted := if ps.hasUrgency ∧ raw > 15/100 then raw * (13/10) else raw
  min (round4 boosted) 1

/-- The distinct indicator categories that fired on a message. -/
def firedCategories (message : String) : List String :=
  ((patternScan message.toList).indicators.map Prod.fst).dedup

/-! ## Canned-reply fallback (api/index.py `_rule_based_fallback`) -/

/-- `_FALLBACK_EARLY`. -/
def FALLBACK_EARLY : List String :=
  ["Hello? Who is this calling?",
   "Oh, what happened? Can you tell me more?",
   "Really? That sounds serious, what should I do?",
   "Hmm ok ok, I'm listening, what happened exactly?",
   "Oh no, is everything alright with my account?",
   "Yes yes, what do you need from me sir?",
   "Arey, this is very worrying, can you explain properly?",
   "Oh god, are you sure? What should I do now?",
   "Wait wait, let me sit down first... what happened to my account?",
   "My heart is beating fast sir, can you please tell me slowly what happened?",
   "Is this genuine sir? How do I know you are really calling from the bank?",
   "Oh no no, I just deposited money yesterday, what went wrong?",
   "Haan haan, I'm listening carefully, but first can you tell me your good name?",
   "Oh my god really?! My wife was just talking about something like this, what organization are you from?",
   "Bilkul sir, I want to cooperate fully, which department exactly are you calling from?"]

/-- `_FALLBACK_MID`. -/
def FALLBACK_MID : List String :=
  ["Ok ok, can you tell me your good name please?",
   "Which department are you calling from sir?",
   "I see I see, so what should I do now?",
   "Can you give me a number to call you back on?",
   "Alright, what details do you need from me exactly?",
   "Hmm ok, can you explain that again slowly?",
   "One second sir, let me get a pen to write this down, what was your name again?",
   "My son usually handles these things, should I call him first?",
   "Ok sir I want to help, but what is your employee ID number?",
   "I see, and what branch are you calling from exactly?",
   "Is there an email address I can contact your department at?",
   "Ok I understand the urgency, but can you tell me your badge number for my records?",
   "Accha accha, my son said I should always note down the reference number, what is it?",
   "Theek hai sir, I will do whatever you say, but what is your direct phone number in case call drops?",
   "Haan I want to help, can you tell me the case number or file number for this?",
   "Ok sir one second, which website should I go to for this?"]

/-- `_FALLBACK_LATE`. -/
def FALLBACK_LATE : List String :=
  ["Ok I'm trying, what UPI ID should I send to?",
   "Let me note that account number, can you repeat it once more?",
   "The app is loading very slowly today, what number should I enter?",
   "What was the reference number again please?",
   "Ok one moment sir, which account are you talking about?",
   "Network is slow today, can you repeat that last part?",
   "I opened my banking app, it's asking for IFSC code, what should I enter?",
   "Sir the OTP is not coming yet, can you send it again from your side?",
   "My phone is hanging, let me restart... what was the account number you said?",
   "Almost done sir, just tell me the exact amount I need to transfer?",
   "Ok I see a UPI request, but the name looks different, is that your name?",
   "Accha ok, I'm on the payment page now, which bank should I select?",
   "One moment, my wife is asking who I'm talking to, what should I tell her?",
   "Sir I'm getting confused with all these numbers, can you start from the beginning?",
   "Ok ok it says enter beneficiary name, what name should I put?",
   "Sir the form is asking for email address, which email should I enter?",
   "Haan almost done, just tell me once more -- what is the tracking number or order ID?",
   "Ok sir I clicked the link but it's showing some page, can you send the link again?",
   "My app shows different UPI options, which one is yours again?",
   "Sir I'm on the website now, it's asking for policy number, what should I type?"]

/-- Python `str.strip()` on a string. -/
def pyStripS (s : String) : String := String.mk (pyStrip s.toList)

/-- Turn count used for phase selection: messages sent by the counterparty
(`sender in ("scammer", "user")`). -/
def fallbackTurnCount (history : List HMsg) : Nat :=
  (history.filter fun m => m.sender == "scammer" || m.sender == "user").length

/-- The conversation-phase pool: early for the first turn, mid up to four
turns, late afterwards. -/
def fallbackPool (history : List HMsg) : List String :=
  let tc := fallbackTurnCount history
  if tc ≤ 1 then FALLBACK_EARLY else if tc ≤ 4 then FALLBACK_MID else FALLBACK_LATE

/-- All previous honeypot replies in the history
(`sender in ("agent", "user")`), stripped. -/
def prevAgentTexts (history : List HMsg) : List String :=
  (history.filter fun m => m.sender == "agent" || m.sender == "user").map fun m => pyStripS m.text

/-- The candidate list `_rule_based_fallback` picks from: the unused lines of
the phase pool; when exhausted the unused lines of the union of all pools;
when that is also empty, the phase pool itself as a last resort. -/
def fallbackCandidates (history : List HMsg) : List String :=
  let responses := fallbackPool history
  let prev := prevAgentTexts history
  let avail1 := responses.filter fun r => !prev.contains r
  let avail2 :=
    if avail1.isEmpty then
      (FALLBACK_EARLY ++ FALLBACK_MID ++ FALLBACK_LATE).filter fun r => !prev.contains r
    else avail1
  if avail2.isEmpty then responses else avail2

/-- `_rule_based_fallback(scammer_message, history)`; `random.choice` is
modelled by an arbitrary index reduced modulo the candidate count (the
scammer message is unused by the source as well). -/
def ruleBasedFallback (scammerMessage : String) (history : List HMsg) (pick : Nat) : String :=
  let available := fallbackCandidates history
  available.getD (pick % available.length) ""

/-- Does a reply end in a question mark? -/
def endsWithQm (s : String) : Bool := s.toList.getLast? == some '?'

/-! ## Fallback-chain budget loop (api/index.py `generate_llm_response`) -/

/-- One fallback-chain entry `(client, model, timeout)`; the credential and
model only label the entry, the budget logic uses the timeout. -/
structure ChainEntry where
  modelName : String
  timeout : ℚ

/-- How one attempt ends. -/
inductive AttemptOutcome where
  | success
  | rateLimit
  | otherError
deriving DecidableEq, Repr

/-- Oracle for one attempt: how long it takes and how it ends (the duration
is unconstrained; the theorems hold for any durations). -/
structure AttemptSpec where
  duration : ℚ
  outcome : AttemptOutcome

/-- What the loop did for one attempted entry. -/
structure AttemptLog where
  entryTimeout : ℚ
  sleepBefore : ℚ
  elapsedAtStart : ℚ
  actualTimeout : ℚ
deriving Repr

/-- `_GLOBAL_DEADLINE = 24.0`. -/
def GLOBAL_DEADLINE : ℚ := 24

/-- The retry loop of `generate_llm_response` over the fallback chain:
break to the rule-based fallback under two seconds of budget, cap the
attempt timeout by the remaining budget minus half a second floored at two,
sleep a bounded backoff after a recent rate limit, then attempt.  Returns
the per-attempt log and whether an attempt succeeded (`false` means the
deterministic fallback reply is used). -/
def runChain (callStart : ℚ) : List (ChainEntry × AttemptSpec) → ℚ → ℚ → List AttemptLog × Bool
  | [], _, _ => ([], false)
  | (e, a) :: rest, clock, last429 =>
    let elapsed := clock - callStart
    if elapsed > GLOBAL_DEADLINE - 2 then ([], false)
    else
      let actualTimeout := min e.timeout (max (GLOBAL_DEADLINE - elapsed - 1/2) 2)
      let since := clock - last429
      let sleepBefore :=
        if last429 > 0 ∧ since < 3/2 then
          if min (3/2 - since) (GLOBAL_DEADLINE - elapsed - 2) > 0 then
            min (3/2 - since) (GLOBAL_DEADLINE - elapsed - 2)
          else 0
        else 0
      let clock1 := clock + sleepBefore + a.duration
      let log : AttemptLog := ⟨e.timeout, sleepBefore, elapsed, actualTimeout⟩
      match a.outcome with
      | .success => ([log], true)
      | .rateLimit =>
        let r := runChain callStart rest clock1 clock1
        (log :: r.1, r.2)
      | .otherError =>
        let r := runChain callStart rest clock1 last429
        (log :: r.1, r.2)

/-- A whole `generate_llm_response` call starting its own clock and with no
rate limit seen yet. -/
def runGenerate (callStart : ℚ) (chain : List (ChainEntry × AttemptSpec)) :
    List AttemptLog × Bool :=
  runChain callStart chain callStart 0

/-! ## Eviction scenarios and no-eviction condition -/

/-- A sample extracted item, as the safety net produces for a phone match. -/
def itX : IntelItem := ⟨"phone", "9876543210", 3/4⟩

/-- Five hundred pairwise distinct session ids, all different from "a". -/
def foreignIds : List String :=
  (List.range MAX_TRACKED_SESSIONS).map fun n => String.mk (List.replicate (n + 1) 'x')

/-- One empty extraction batch per foreign session (a batch that found
nothing still evicts, tracks the session and grows `_seen_intel`). -/
def foreignReqs : List (String × List IntelItem) :=
  foreignIds.map fun x => (x, ([] : List IntelItem))

/-- Eviction scenario for claim C1: session "a" extracts an item, five
hundred other sessions are then tracked (overflowing the cap), and session
"a" extracts the same item again after its seen-key set was evicted. -/
def evictReqs : List (String × List IntelItem) :=
  ("a", [itX]) :: foreignReqs ++ [("a", [itX])]

/-- Transcript message of the replay scenario for claim C2. -/
def replayMsg : String := "call 9876543210"

/-- State after session "a" processed the replay transcript once. -/
def replayOnce : GState := extractionPass gInit "a" replayMsg []

/-- ... after five hundred further sessions were then tracked. -/
def replayCrowded : GState := runBatchesFrom replayOnce foreignReqs

/-- ... after session "a" replays the same transcript. -/
def replayTwice : GState := extractionPass replayCrowded "a" replayMsg []

/-- A conversation in which the agent has already used every canned
fallback line. -/
def exhaustedHistory : List HMsg :=
  (FALLBACK_EARLY ++ FALLBACK_MID ++ FALLBACK_LATE).map fun t => ⟨"agent", t⟩

/-- A state in which session `sid`'s dedup set cannot be hit by eviction:
the cap is not exceeded, and the session is already tracked or there is
still room for it. -/
def noEvictFor (g : GState) (sid : String) : Prop :=
  g.seenMap.length ≤ MAX_TRACKED_SESSIONS ∧
    (hasSession g.seenMap sid = true ∨ g.seenMap.length < MAX_TRACKED_SESSIONS)

/-! # Theorems -/

/-! ## C3: session scam confidence never decreases -/

theorem applyTurn_conf_le (s : SessionState) (t : TurnData) :
    s.scamConfidence ≤ (applyTurn s t).scamConfidence :=
  le_max_left _ _

theorem foldl_applyTurn_conf_le (turns : List TurnData) :
    ∀ s : SessionState, s.scamConfidence ≤ (turns.foldl applyTurn s).scamConfidence := by
  induction turns with
  | nil => intro s; exact le_refl _
  | cons t rest ih => intro s; exact le_trans (applyTurn_conf_le s t) (ih _)

/-- C3: for every session and every pair of successive successfully processed
turns, the scam confidence after the later turn is at least its value after
the earlier turn: each turn only updates it through `max` with the new
classification confidence (api/index.py line 980, app/main.py line 196). -/
theorem c3_confidence_monotone (s : SessionState) (turns : List TurnData)
    (i j : Nat) (hij : i ≤ j) : confAfter s turns i ≤ confAfter s turns j := by
  unfold confAfter
  have hsplit : turns.take j = turns.take i ++ (turns.drop i).take (j - i) := by
    conv_lhs => rw [show j = i + (j - i) from (Nat.add_sub_cancel' hij).symm]
    exact List.take_add turns i (j - i)
  rw [hsplit, List.foldl_append]
  exact foldl_applyTurn_conf_le _ _

theorem c3_confidence_monotone_witness :
    (1 : Nat) ≤ 2 ∧
      confAfter freshSession [⟨"m1", "r1", 1/2, "generic"⟩, ⟨"m2", "r2", 1/4, "generic"⟩] 1
        ≤ confAfter freshSession [⟨"m1", "r1", 1/2, "generic"⟩, ⟨"m2", "r2", 1/4, "generic"⟩] 2 :=
  ⟨by decide, c3_confidence_monotone _ _ 1 2 (by decide)⟩

/-! ## C4: ENDED is terminal and idempotent -/

theorem transition_from_ended (m : Machine) (inp : TransInput)
    (h : m.currentState = .ENDED) :
    (transition m inp).1.currentState = .ENDED ∧
      (transition m inp).2 = ⟨.ENDED, true, "Conversation ended"⟩ := by
  unfold transition
  simp [h]

theorem foldl_transition_ended (inputs : List TransInput) :
    ∀ m : Machine, m.currentState = .ENDED →
      (inputs.foldl (fun m i => (transition m i).1) m).currentState = .ENDED := by
  induction inputs with
  | nil => intro m h; exact h
  | cons i rest ih => intro m h; exact ih _ (transition_from_ended m i h).1

/-- C4: ENDED is terminal and idempotent: whenever the machine is in ENDED,
any call of `StateMachine.transition` returns next state ENDED with the
should-end flag set, leaves the machine in ENDED, and no sequence of further
transition calls ever moves it out of ENDED. -/
theorem c4_ended_terminal (m : Machine) (inp : TransInput) (inputs : List TransInput)
    (h : m.currentState = .ENDED) :
    (transition m inp).2.nextState = .ENDED ∧
      (transition m inp).2.shouldEnd = true ∧
      (transition m inp).1.currentState = .ENDED ∧
      (inputs.foldl (fun m i => (transition m i).1) m).currentState = .ENDED := by
  refine ⟨?_, ?_, (transition_from_ended m inp h).1, foldl_transition_ended inputs m h⟩
  · rw [(transition_from_ended m inp h).2]
  · rw [(transition_from_ended m inp h).2]

theorem c4_ended_terminal_witness :
    (Machine.mk .ENDED 7 2 []).currentState = .ENDED ∧
      ((transition ⟨.ENDED, 7, 2, []⟩ ⟨0, false, false, 0, false⟩).2.nextState = .ENDED ∧
        (transition ⟨.ENDED, 7, 2, []⟩ ⟨0, false, false, 0, false⟩).2.shouldEnd = true ∧
        (transition ⟨.ENDED, 7, 2, []⟩ ⟨0, false, false, 0, false⟩).1.currentState = .ENDED ∧
        (([⟨0, false, false, 0, false⟩, ⟨1, true, true, 1, true⟩] :
            List TransInput).foldl (fun m i => (transition m i).1)
          ⟨.ENDED, 7, 2, []⟩).currentState = .ENDED) :=
  ⟨rfl, c4_ended_terminal ⟨.ENDED, 7, 2, []⟩ _ _ rfl⟩

/-! ## C6: SUSPICIOUS is declared but never selected by `transition` -/

theorem transition_ne_suspicious (m : Machine) (inp : TransInput) :
    (transition m inp).1.currentState ≠ .SUSPICIOUS := by
  unfold transition
  cases h : m.currentState <;>
    simp [h, doTransition] <;>
    split_ifs <;>
    simp_all

theorem foldl_transition_ne_suspicious (inputs : List TransInput) :
    ∀ m : Machine, m.currentState ≠ .SUSPICIOUS →
      (inputs.foldl (fun m i => (transition m i).1) m).currentState ≠ .SUSPICIOUS := by
  induction inputs with
  | nil => intro m h; exact h
  | cons i rest ih => intro m _; exact ih _ (transition_ne_suspicious m i)

/-- C6 counterexample: contrary to the claim, no sequence of inputs ever
moves the machine into SUSPICIOUS: `StateMachine.transition` never selects
it as a next state, so it is unreachable from the initial machine. -/
theorem c6_counterexample :
    ¬ ∃ inputs : List TransInput, (runMachine inputs).currentState = .SUSPICIOUS := by
  rintro ⟨inputs, h⟩
  exact foldl_transition_ne_suspicious inputs initMachine (by decide) h

/-- C6 (amended): STATE_CONFIGS declares SUSPICIOUS as an allowed successor
of REQUEST and of EXTRACTION, and a machine already in SUSPICIOUS returns to
EXTRACTION while its three-turn budget lasts and falls through to CLOSING
when it is exhausted; but the transition function never selects SUSPICIOUS,
so it is unreachable from the initial state. -/
theorem c6_suspicious_branch (m : Machine) (inp : TransInput)
    (h : m.currentState = .SUSPICIOUS) (ht : inp.scammerTerminated = false) :
    (transition m inp).1.currentState
        = (if m.stateTurnCount + 1 ≥ maxTurnsOf .SUSPICIOUS then .CLOSING else .EXTRACTION) ∧
      MState.SUSPICIOUS ∈ nextStatesOf .REQUEST ∧
      MState.SUSPICIOUS ∈ nextStatesOf .EXTRACTION ∧
      ∀ inputs : List TransInput, (runMachine inputs).currentState ≠ .SUSPICIOUS := by
  refine ⟨?_, by decide, by decide,
    fun inputs => foldl_transition_ne_suspicious inputs initMachine (by decide)⟩
  unfold transition
  simp only [h, ht]
  split_ifs <;> simp_all [doTransition, maxTurnsOf]

theorem c6_suspicious_branch_witness :
    (Machine.mk .SUSPICIOUS 9 0 []).currentState = .SUSPICIOUS ∧
      (TransInput.mk 0 false false 0 false).scammerTerminated = false ∧
      ((transition ⟨.SUSPICIOUS, 9, 0, []⟩ ⟨0, false, false, 0, false⟩).1.currentState
          = (if (Machine.mk .SUSPICIOUS 9 0 []).stateTurnCount + 1 ≥ maxTurnsOf .SUSPICIOUS
              then MState.CLOSING else MState.EXTRACTION) ∧
        MState.SUSPICIOUS ∈ nextStatesOf .REQUEST ∧
        MState.SUSPICIOUS ∈ nextStatesOf .EXTRACTION ∧
        ∀ inputs : List TransInput, (runMachine inputs).currentState ≠ .SUSPICIOUS) :=
  ⟨rfl, rfl, c6_suspicious_branch ⟨.SUSPICIOUS, 9, 0, []⟩ ⟨0, false, false, 0, false⟩ rfl rfl⟩

/-! ## C10: the fallback-chain retry loop is budget-bounded -/

theorem runChain_props (callStart : ℚ) :
    ∀ (chain : List (ChainEntry × AttemptSpec)) (clock last429 : ℚ),
      (runChain callStart chain clock last429).1.length ≤ chain.length ∧
      ∀ log ∈ (runChain callStart chain clock last429).1,
        log.elapsedAtStart ≤ GLOBAL_DEADLINE - 2 ∧
        log.actualTimeout
            = min log.entryTimeout (max (GLOBAL_DEADLINE - log.elapsedAtStart - 1/2) 2) ∧
        0 ≤ log.sleepBefore ∧
        log.sleepBefore ≤ GLOBAL_DEADLINE - log.elapsedAtStart := by
  intro chain
  induction chain with
  | nil => intro clock last429; simp [runChain]
  | cons ca rest ih =>
    intro clock last429
    obtain ⟨e, a⟩ := ca
    show (runChain callStart ((e, a) :: rest) clock last429).1.length ≤ rest.length + 1 ∧ _
    rw [runChain]
    by_cases hdl : clock - callStart > GLOBAL_DEADLINE - 2
    · simp [hdl]
    · have hel : clock - callStart ≤ GLOBAL_DEADLINE - 2 := not_lt.mp hdl
      simp only [hdl, if_false]
      have hsleep :
          (0 : ℚ) ≤ (if last429 > 0 ∧ clock - last429 < 3/2 then
              if min (3/2 - (clock - last429)) (GLOBAL_DEADLINE - (clock - callStart) - 2) > 0 then
                min (3/2 - (clock - last429)) (GLOBAL_DEADLINE - (clock - callStart) - 2)
              else 0
            else 0) ∧
          (if last429 > 0 ∧ clock - last429 < 3/2 then
              if min (3/2 - (clock - last429)) (GLOBAL_DEADLINE - (clock - callStart) - 2) > 0 then
                min (3/2 - (clock - last429)) (GLOBAL_DEADLINE - (clock - callStart) - 2)
              else 0
            else 0) ≤ GLOBAL_DEADLINE - (clock - callStart) := by
        constructor
        · split_ifs with h1 h2
          · exact le_of_lt h2
          · exact le_refl 0
          · exact le_refl 0
        · split_ifs with h1 h2
          · calc min (3/2 - (clock - last429)) (GLOBAL_DEADLINE - (clock - callStart) - 2)
                ≤ GLOBAL_DEADLINE - (clock - callStart) - 2 := min_le_right _ _
              _ ≤ GLOBAL_DEADLINE - (clock - callStart) := by linarith
          · linarith [hel, show (2 : ℚ) ≤ GLOBAL_DEADLINE from by norm_num [GLOBAL_DEADLINE]]
          · linarith [hel, show (2 : ℚ) ≤ GLOBAL_DEADLINE from by norm_num [GLOBAL_DEADLINE]]
      cases houtcome : a.outcome with
      | success =>
        simp only [houtcome]
        refine ⟨by simp, ?_⟩
        intro log hlog
        simp only [List.mem_singleton] at hlog
        subst hlog
        exact ⟨hel, rfl, hsleep.1, hsleep.2⟩
      | rateLimit =>
        simp only [houtcome]
        have hrest := ih (clock +
          (if last429 > 0 ∧ clock - last429 < 3/2 then
              if min (3/2 - (clock - last429)) (GLOBAL_DEADLINE - (clock - callStart) - 2) > 0 then
                min (3/2 - (clock - last429)) (GLOBAL_DEADLINE - (clock - callStart) - 2)
              else 0
            else 0) + a.duration) (clock +
          (if last429 > 0 ∧ clock - last429 < 3/2 then
              if min (3/2 - (clock - last429)) (GLOBAL_DEADLINE - (clock - callStart) - 2) > 0 then
                min (3/2 - (clock - last429)) (GLOBAL_DEADLINE - (clock - callStart) - 2)
              else 0
            else 0) + a.duration)
        refine ⟨by simpa using Nat.succ_le_succ hrest.1, ?_⟩
        intro log hlog
        rcases List.mem_cons.mp hlog with hh | hh
        · subst hh
          exact ⟨hel, rfl, hsleep.1, hsleep.2⟩
        · exact hrest.2 log hh
      | otherError =>
        simp only [houtcome]
        have hrest := ih (clock +
          (if last429 > 0 ∧ clock - last429 < 3/2 then
              if min (3/2 - (clock - last429)) (GLOBAL_DEADLINE - (clock - callStart) - 2) > 0 then
                min (3/2 - (clock - last429)) (GLOBAL_DEADLINE - (clock - callStart) - 2)
              else 0
            else 0) + a.duration) last429
        refine ⟨by simpa using Nat.succ_le_succ hrest.1, ?_⟩
        intro log hlog
        rcases List.mem_cons.mp hlog with hh | hh
        · subst hh
          exact ⟨hel, rfl, hsleep.1, hsleep.2⟩
        · exact hrest.2 log hh

/-- C10: the retry loop of `generate_llm_response` is bounded: it makes at
most one attempt per fallback-chain entry, attempts only while the elapsed
time is within the 24-second global deadline minus the 2-second margin,
computes each attempt timeout as the entry timeout capped by the remaining
budget minus 0.5 seconds and floored at 2 seconds, and any rate-limit
backoff sleep is nonnegative and never exceeds the remaining budget. -/
theorem c10_chain_budget (callStart : ℚ) (chain : List (ChainEntry × AttemptSpec)) :
    (runGenerate callStart chain).1.length ≤ chain.length ∧
      ∀ log ∈ (runGenerate callStart chain).1,
        log.elapsedAtStart ≤ GLOBAL_DEADLINE - 2 ∧
        log.actualTimeout
            = min log.entryTimeout (max (GLOBAL_DEADLINE - log.elapsedAtStart - 1/2) 2) ∧
        0 ≤ log.sleepBefore ∧
        log.sleepBefore ≤ GLOBAL_DEADLINE - log.elapsedAtStart :=
  runChain_props callStart chain callStart 0

/-! ## Dedup-loop lemmas -/

theorem dedupCore_seen_mono : ∀ (items : List IntelItem) (seen : List String),
    seen ⊆ (dedupCore seen items).1 := by
  intro items
  induction items with
  | nil => intro seen a ha; simpa [dedupCore] using ha
  | cons it rest ih =>
    intro seen
    rw [dedupCore]
    split_ifs with h
    · exact fun a ha => ih (itemKey it :: seen) (List.mem_cons_of_mem _ ha)
    · exact ih seen

theorem dedupCore_out_mem : ∀ (items : List IntelItem) (seen : List String),
    ∀ it ∈ (dedupCore seen items).2, itemKey it ∈ (dedupCore seen items).1 := by
  intro items
  induction items with
  | nil => intro seen it hit; simp [dedupCore] at hit
  | cons hd rest ih =>
    intro seen it hit
    rw [dedupCore] at hit ⊢
    split_ifs at hit ⊢ with h
    · rcases List.mem_cons.mp hit with rfl | hmem
      · exact dedupCore_seen_mono rest (itemKey it :: seen) (List.mem_cons_self _ _)
      · exact ih _ it hmem
    · exact ih seen it hit

theorem dedupCore_out_fresh : ∀ (items : List IntelItem) (seen : List String),
    ∀ it ∈ (dedupCore seen items).2, itemKey it ∉ seen := by
  intro items
  induction items with
  | nil => intro seen it hit; simp [dedupCore] at hit
  | cons hd rest ih =>
    intro seen it hit
    rw [dedupCore] at hit
    split_ifs at hit with h
    · rcases List.mem_cons.mp hit with rfl | hmem
      · exact h.1
      · intro hin
        exact ih (itemKey hd :: seen) it hmem (List.mem_cons_of_mem _ hin)
    · exact ih seen it hit

theorem dedupCore_out_nodup : ∀ (items : List IntelItem) (seen : List String),
    (((dedupCore seen items).2).map itemKey).Nodup := by
  intro items
  induction items with
  | nil => intro seen; simp [dedupCore]
  | cons hd rest ih =>
    intro seen
    rw [dedupCore]
    split_ifs with h
    · refine List.Nodup.cons ?_ (ih (itemKey hd :: seen))
      intro hmem
      rcases List.mem_map.mp hmem with ⟨it, hit, hkey⟩
      exact dedupCore_out_fresh rest (itemKey hd :: seen) it hit (hkey ▸ List.mem_cons_self _ _)
    · exact ih seen

theorem dedupCore_covers : ∀ (items : List IntelItem) (seen : List String),
    ∀ it ∈ items, it.value = "" ∨ itemKey it ∈ (dedupCore seen items).1 := by
  intro items
  induction items with
  | nil => intro seen it hit; simp at hit
  | cons hd rest ih =>
    intro seen it hit
    rw [dedupCore]
    split_ifs with h
    · rcases List.mem_cons.mp hit with rfl | hmem
      · exact Or.inr (dedupCore_seen_mono rest (itemKey it :: seen) (List.mem_cons_self _ _))
      · exact ih (itemKey hd :: seen) it hmem
    · rcases List.mem_cons.mp hit with rfl | hmem
      · rcases Decidable.not_and_iff_or_not.mp h with hk | hv
        · exact Or.inr (dedupCore_seen_mono rest seen (Decidable.not_not.mp hk))
        · exact Or.inl (Decidable.not_not.mp hv)
      · exact ih seen it hmem

theorem dedupCore_stable : ∀ (items : List IntelItem) (seen : List String),
    (∀ it ∈ items, it.value = "" ∨ itemKey it ∈ seen) → dedupCore seen items = (seen, []) := by
  intro items
  induction items with
  | nil => intro seen _; rfl
  | cons hd rest ih =>
    intro seen hcov
    rw [dedupCore]
    have hhd := hcov hd (List.mem_cons_self _ _)
    have hneg : ¬(itemKey hd ∉ seen ∧ hd.value ≠ "") := by
      rintro ⟨hnot, hval⟩
      rcases hhd with hv | hk
      · exact hval hv
      · exact hnot hk
    rw [if_neg hneg]
    exact ih seen fun it hit => hcov it (List.mem_cons_of_mem _ hit)

/-! ## Association-map lemmas for `_seen_intel` and the session store -/

theorem hasSession_cons (q : String × List String) (m : SeenMap) (y : String) :
    hasSession (q :: m) y = ((q.1 == y) || hasSession m y) := by
  simp [hasSession]

theorem seenLookup_cons (q : String × List String) (m : SeenMap) (y : String) :
    seenLookup (q :: m) y = if q.1 = y then q.2 else seenLookup m y := by
  unfold seenLookup
  by_cases h : q.1 = y
  · rw [List.find?_cons_of_pos _ (by simp [h]), if_pos h]
  · rw [List.find?_cons_of_neg _ (by simp [h]), if_neg h]

theorem intelLookup_cons (q : String × List IntelItem) (m : IntelMap) (y : String) :
    intelLookup (q :: m) y = if q.1 = y then q.2 else intelLookup m y := by
  unfold intelLookup
  by_cases h : q.1 = y
  · rw [List.find?_cons_of_pos _ (by simp [h]), if_pos h]
  · rw [List.find?_cons_of_neg _ (by simp [h]), if_neg h]

theorem storeSeen_cons (q : String × List String) (m : SeenMap) (x : String) (v : List String) :
    storeSeen (q :: m) x v = (if q.1 = x then (x, v) else q) :: storeSeen m x v := by
  unfold storeSeen
  by_cases h : q.1 = x <;> simp [h]

theorem hasSession_iff (m : SeenMap) (x : String) :
    hasSession m x = true ↔ x ∈ m.map Prod.fst := by
  simp only [hasSession, List.any_eq_true, List.mem_map, beq_iff_eq]

theorem evictSeen_eq_self (m : SeenMap) (h : m.length ≤ MAX_TRACKED_SESSIONS) :
    evictSeen m = m := by
  unfold evictSeen
  rw [if_neg (by omega)]

theorem seenLookup_setdefault (m : SeenMap) (x y : String) :
    seenLookup (setdefaultSeen m x) y = seenLookup m y := by
  unfold setdefaultSeen
  split_ifs with h
  · rfl
  · unfold seenLookup
    rw [List.find?_append]
    cases hf : m.find? (fun p => p.1 == y) with
    | some p => simp
    | none =>
      by_cases hxy : x = y
      · subst hxy
        simp
      · simp [hxy]

theorem hasSession_setdefault_self (m : SeenMap) (x : String) :
    hasSession (setdefaultSeen m x) x = true := by
  unfold setdefaultSeen
  split_ifs with h
  · exact h
  · simp [hasSession, List.any_append]

theorem storeSeen_lookup_self : ∀ (m : SeenMap) (x : String) (v : List String),
    hasSession m x = true → seenLookup (storeSeen m x v) x = v := by
  intro m
  induction m with
  | nil => intro x v h; simp [hasSession] at h
  | cons p rest ih =>
    intro x v h
    rw [storeSeen_cons]
    by_cases hp : p.1 = x
    · rw [if_pos hp, seenLookup_cons, if_pos rfl]
    · rw [if_neg hp, seenLookup_cons, if_neg hp]
      apply ih
      rw [hasSession_cons] at h
      simpa [beq_eq_false_iff_ne.mpr hp] using h

theorem storeSeen_lookup_ne : ∀ (m : SeenMap) (x : String) (v : List String) (y : String),
    y ≠ x → seenLookup (storeSeen m x v) y = seenLookup m y := by
  intro m
  induction m with
  | nil => intro x v y _; rfl
  | cons p rest ih =>
    intro x v y h
    rw [storeSeen_cons]
    by_cases hp : p.1 = x
    · rw [if_pos hp, seenLookup_cons, seenLookup_cons,
          if_neg (show ¬(x, v).1 = y from fun he => h he.symm),
          if_neg (show ¬p.1 = y from fun he => h (he.symm.trans hp))]
      exact ih x v y h
    · rw [if_neg hp, seenLookup_cons, seenLookup_cons]
      by_cases hpy : p.1 = y
      · rw [if_pos hpy, if_pos hpy]
      · rw [if_neg hpy, if_neg hpy]
        exact ih x v y h

theorem storeSeen_fst : ∀ (m : SeenMap) (x : String) (v : List String),
    (storeSeen m x v).map Prod.fst = m.map Prod.fst := by
  intro m
  induction m with
  | nil => intro x v; rfl
  | cons p rest ih =>
    intro x v
    rw [storeSeen_cons]
    by_cases hp : p.1 = x
    · simp only [if_pos hp, List.map_cons]
      rw [ih x v, hp]
    · simp only [if_neg hp, List.map_cons]
      rw [ih x v]

theorem storeSeen_length (m : SeenMap) (x : String) (v : List String) :
    (storeSeen m x v).length = m.length :=
  List.length_map m _

theorem storeSeen_fresh : ∀ (m : SeenMap) (x : String) (v w : List String),
    hasSession m x = false → storeSeen (m ++ [(x, w)]) x v = m ++ [(x, v)] := by
  intro m
  induction m with
  | nil => intro x v w _; simp [storeSeen]
  | cons p rest ih =>
    intro x v w h
    rw [hasSession_cons, Bool.or_eq_false_iff] at h
    have hp : p.1 ≠ x := by
      intro he
      rw [he] at h
      simp at h
    rw [List.cons_append, storeSeen_cons, if_neg hp, ih x v w h.2, List.cons_append]

theorem hasSession_append_single (m : SeenMap) (x : String) (v : List String) (y : String) :
    hasSession (m ++ [(x, v)]) y = (hasSession m y || x == y) := by
  simp [hasSession, List.any_append]

theorem seenLookup_append_fresh (m : SeenMap) (x : String) (v : List String)
    (h : hasSession m x = false) : seenLookup (m ++ [(x, v)]) x = v := by
  unfold seenLookup
  rw [List.find?_append]
  have hnone : m.find? (fun p => p.1 == x) = none := by
    rw [List.find?_eq_none]
    intro p hp hbeq
    have : hasSession m x = true := by
      simp only [hasSession, List.any_eq_true]
      exact ⟨p, hp, hbeq⟩
    rw [h] at this
    exact Bool.false_ne_true this
  simp [hnone]

theorem intelLookup_extend_self : ∀ (m : IntelMap) (x : String) (items : List IntelItem),
    intelLookup (intelExtend m x items) x = intelLookup m x ++ items := by
  have hmap : ∀ (m : IntelMap) (x : String) (items : List IntelItem),
      (m.any fun p => p.1 == x) = true →
        intelLookup (m.map fun p => if p.1 == x then (x, p.2 ++ items) else p) x
          = intelLookup m x ++ items := by
    intro m
    induction m with
    | nil => intro x items h; simp at h
    | cons p rest ih =>
      intro x items h
      rw [List.map_cons]
      by_cases hp : p.1 = x
      · rw [if_pos (by simp [hp]), intelLookup_cons, intelLookup_cons, if_pos rfl, if_pos hp]
      · rw [if_neg (by simp [hp]), intelLookup_cons, intelLookup_cons, if_neg hp, if_neg hp]
        apply ih
        simpa [List.any_cons, beq_eq_false_iff_ne.mpr hp] using h
  have hfresh : ∀ (m : IntelMap) (x : String),
      (m.any fun p => p.1 == x) = false → intelLookup m x = [] := by
    intro m x h
    unfold intelLookup
    have hnone : m.find? (fun p => p.1 == x) = none := by
      rw [List.find?_eq_none]
      intro p hp hbeq
      have : (m.any fun p => p.1 == x) = true := List.any_eq_true.mpr ⟨p, hp, hbeq⟩
      rw [h] at this
      exact Bool.false_ne_true this
    rw [hnone]
  intro m x items
  unfold intelExtend
  split_ifs with h
  · exact hmap m x items h
  · have h' : (m.any fun p => p.1 == x) = false := by
      cases hb : (m.any fun p => p.1 == x) with
      | false => rfl
      | true => exact absurd hb h
    rw [hfresh m x h']
    unfold intelLookup
    rw [List.find?_append]
    have hnone : m.find? (fun p => p.1 == x) = none := by
      rw [List.find?_eq_none]
      intro p hp hbeq
      have : (m.any fun p => p.1 == x) = true := List.any_eq_true.mpr ⟨p, hp, hbeq⟩
      rw [h'] at this
      exact Bool.false_ne_true this
    simp [hnone]

theorem intelLookup_extend_ne : ∀ (m : IntelMap) (x : String) (items : List IntelItem) (y : String),
    y ≠ x → intelLookup (intelExtend m x items) y = intelLookup m y := by
  have hmap : ∀ (m : IntelMap) (x : String) (items : List IntelItem) (y : String), y ≠ x →
      intelLookup (m.map fun p => if p.1 == x then (x, p.2 ++ items) else p) y
        = intelLookup m y := by
    intro m
    induction m with
    | nil => intro x items y _; rfl
    | cons p rest ih =>
      intro x items y h
      rw [List.map_cons]
      by_cases hp : p.1 = x
      · rw [if_pos (by simp [hp]), intelLookup_cons, intelLookup_cons,
            if_neg (show ¬(x, p.2 ++ items).1 = y from fun he => h he.symm),
            if_neg (show ¬p.1 = y from fun he => h (he.symm.trans hp))]
        exact ih x items y h
      · rw [if_neg (by simp [hp]), intelLookup_cons, intelLookup_cons]
        by_cases hpy : p.1 = y
        · rw [if_pos hpy, if_pos hpy]
        · rw [if_neg hpy, if_neg hpy]
          exact ih x items y h
  intro m x items y h
  unfold intelExtend
  split_ifs with hany
  · exact hmap m x items y h
  · unfold intelLookup
    rw [List.find?_append]
    cases hf : m.find? (fun p => p.1 == y) with
    | some p => simp
    | none => simp [beq_eq_false_iff_ne.mpr (fun he : x = y => h he.symm)]

/-! ## Step and run lemmas for the dedup pipeline -/

theorem hasSession_storeSeen : ∀ (m : SeenMap) (x : String) (v : List String) (y : String),
    hasSession (storeSeen m x v) y = hasSession m y := by
  intro m
  induction m with
  | nil => intro x v y; rfl
  | cons p rest ih =>
    intro x v y
    rw [storeSeen_cons, hasSession_cons, hasSession_cons, ih x v y]
    by_cases hp : p.1 = x
    · rw [if_pos hp, hp]
    · rw [if_neg hp]

theorem processBatch_props (g : GState) (sid : String) (b : List IntelItem)
    (h : noEvictFor g sid) :
    noEvictFor (processBatch g sid b) sid ∧
      seenLookup (processBatch g sid b).seenMap sid
          = (dedupCore (seenLookup g.seenMap sid) b).1 ∧
      intelLookup (processBatch g sid b).intelMap sid
          = intelLookup g.intelMap sid ++ (dedupCore (seenLookup g.seenMap sid) b).2 := by
  obtain ⟨hlen, hroom⟩ := h
  have hev : evictSeen g.seenMap = g.seenMap := evictSeen_eq_self _ hlen
  have hm1has : hasSession (setdefaultSeen g.seenMap sid) sid = true :=
    hasSession_setdefault_self _ _
  have hm1lk : seenLookup (setdefaultSeen g.seenMap sid) sid = seenLookup g.seenMap sid :=
    seenLookup_setdefault _ _ _
  have hm1len : (setdefaultSeen g.seenMap sid).length ≤ MAX_TRACKED_SESSIONS := by
    unfold setdefaultSeen
    split_ifs with hs
    · exact hlen
    · rcases hroom with hs' | hlt
      · exact absurd hs' hs
      · simpa using Nat.succ_le_of_lt hlt
  refine ⟨⟨?_, Or.inl ?_⟩, ?_, ?_⟩
  · simp only [processBatch, dedupIntel, hev]
    rw [storeSeen_length]
    exact hm1len
  · simp only [processBatch, dedupIntel, hev]
    rw [hasSession_storeSeen]
    exact hm1has
  · simp only [processBatch, dedupIntel, hev, hm1lk]
    rw [storeSeen_lookup_self _ _ _ hm1has]
  · simp only [processBatch, dedupIntel, hev, hm1lk]
    rw [intelLookup_extend_self]

theorem runSess_props : ∀ (bs : List (List IntelItem)) (g : GState) (sid : String),
    noEvictFor g sid →
      noEvictFor (runSess g sid bs) sid ∧
      (∀ k ∈ seenLookup g.seenMap sid, k ∈ seenLookup (runSess g sid bs).seenMap sid) ∧
      (∀ b ∈ bs, ∀ it ∈ b, it.value = "" ∨ itemKey it ∈ seenLookup (runSess g sid bs).seenMap sid) := by
  intro bs
  induction bs with
  | nil => intro g sid h; exact ⟨h, fun k hk => hk, by simp⟩
  | cons b rest ih =>
    intro g sid h
    have hp := processBatch_props g sid b h
    have hih := ih (processBatch g sid b) sid hp.1
    refine ⟨hih.1, ?_, ?_⟩
    · intro k hk
      apply hih.2.1
      rw [hp.2.1]
      exact dedupCore_seen_mono b _ hk
    · intro b' hb' it hit
      rcases List.mem_cons.mp hb' with rfl | hmem
      · rcases dedupCore_covers b' (seenLookup g.seenMap sid) it hit with hv | hk
        · exact Or.inl hv
        · refine Or.inr (hih.2.1 _ ?_)
          rw [hp.2.1]
          exact hk
      · exact hih.2.2 b' hmem it hit

theorem runSess_stable : ∀ (bs : List (List IntelItem)) (g : GState) (sid : String),
    noEvictFor g sid →
    (∀ b ∈ bs, ∀ it ∈ b, it.value = "" ∨ itemKey it ∈ seenLookup g.seenMap sid) →
      seenLookup (runSess g sid bs).seenMap sid = seenLookup g.seenMap sid ∧
      intelLookup (runSess g sid bs).intelMap sid = intelLookup g.intelMap sid := by
  intro bs
  induction bs with
  | nil => intro g sid _ _; exact ⟨rfl, rfl⟩
  | cons b rest ih =>
    intro g sid h hcov
    have hp := processBatch_props g sid b h
    have hstable : dedupCore (seenLookup g.seenMap sid) b = (seenLookup g.seenMap sid, []) :=
      dedupCore_stable b _ (hcov b (List.mem_cons_self _ _))
    have hseen : seenLookup (processBatch g sid b).seenMap sid = seenLookup g.seenMap sid := by
      rw [hp.2.1, hstable]
    have hintel : intelLookup (processBatch g sid b).intelMap sid = intelLookup g.intelMap sid := by
      rw [hp.2.2, hstable]
      simp
    have hcov' : ∀ b' ∈ rest, ∀ it ∈ b', it.value = ""
        ∨ itemKey it ∈ seenLookup (processBatch g sid b).seenMap sid := by
      intro b' hb' it hit
      rw [hseen]
      exact hcov b' (List.mem_cons_of_mem _ hb') it hit
    have hih := ih (processBatch g sid b) sid hp.1 hcov'
    exact ⟨hih.1.trans hseen, hih.2.trans hintel⟩

theorem foldl_scammer_eq_runSess : ∀ (hist : List HMsg) (g : GState) (sid : String),
    hist.foldl
        (fun g m => if m.sender == "scammer" then processBatch g sid (safetyExtract m.text) else g) g
      = runSess g sid ((hist.filter fun m => m.sender == "scammer").map fun m => safetyExtract m.text) := by
  intro hist
  induction hist with
  | nil => intro g sid; rfl
  | cons m rest ih =>
    intro g sid
    by_cases hm : (m.sender == "scammer") = true
    · simp only [List.foldl_cons, List.filter_cons, hm, if_true, List.map_cons, runSess]
      exact ih _ sid
    · simp only [List.foldl_cons, List.filter_cons, hm, if_false, Bool.false_eq_true]
      exact ih g sid

theorem extractionPass_eq_runSess (g : GState) (sid : String) (msg : String) (hist : List HMsg) :
    extractionPass g sid msg hist = runSess g sid (passBatches msg hist) := by
  unfold extractionPass passBatches
  rw [foldl_scammer_eq_runSess]
  rfl

/-- C2 (amended): full-transcript re-extraction is idempotent provided the
session's dedup key set survives between the passes: when fewer than the
500-session cap are tracked, running the safety-net extraction pass (current
message plus every prior counterparty message, merged through the
per-session dedup set) a second time on the same transcript adds zero new
items, so the deduplicated intelligence set does not grow. -/
theorem c2_replay_idempotent (g : GState) (sid : String) (msg : String) (hist : List HMsg)
    (h : g.seenMap.length < MAX_TRACKED_SESSIONS) :
    intelLookup (extractionPass (extractionPass g sid msg hist) sid msg hist).intelMap sid
      = intelLookup (extractionPass g sid msg hist).intelMap sid := by
  have h0 : noEvictFor g sid := ⟨le_of_lt h, Or.inr h⟩
  simp only [extractionPass_eq_runSess]
  have p1 := runSess_props (passBatches msg hist) g sid h0
  exact (runSess_stable (passBatches msg hist) _ sid p1.1 p1.2.2).2

theorem c2_replay_idempotent_witness :
    gInit.seenMap.length < MAX_TRACKED_SESSIONS ∧
      intelLookup
          (extractionPass (extractionPass gInit "a" "call 9876543210" [])
            "a" "call 9876543210" []).intelMap "a"
        = intelLookup (extractionPass gInit "a" "call 9876543210" []).intelMap "a" :=
  ⟨by decide, c2_replay_idempotent gInit "a" "call 9876543210" [] (by decide)⟩

/-! ## The eviction scenarios -/

theorem foreignIds_nodup : foreignIds.Nodup := by
  unfold foreignIds
  refine List.Nodup.map ?_ (List.nodup_range _)
  intro a b hab
  have h1 : (List.replicate (a + 1) 'x').length = (List.replicate (b + 1) 'x').length := by
    have := congrArg String.data hab
    simpa using this
  simpa using h1

theorem a_notin_foreignIds : "a" ∉ foreignIds := by
  unfold foreignIds
  intro h
  rcases List.mem_map.mp h with ⟨n, _, hn⟩
  have hd : List.replicate (n + 1) 'x' = "a".data := congrArg String.data hn
  have hlen : n + 1 = 1 := by
    have := congrArg List.length hd
    simpa using this
  rw [hlen] at hd
  simp [List.replicate] at hd

theorem foreignIds_length : foreignIds.length = MAX_TRACKED_SESSIONS := by
  simp [foreignIds]

theorem runFrom_fresh : ∀ (ids : List String) (g : GState),
    ids.Nodup →
    (∀ x ∈ ids, hasSession g.seenMap x = false) →
    g.seenMap.length + ids.length ≤ MAX_TRACKED_SESSIONS + 1 →
    ∃ tail : SeenMap,
      (runBatchesFrom g (ids.map fun x => (x, ([] : List IntelItem)))).seenMap
          = g.seenMap ++ tail ∧
        tail.map Prod.fst = ids ∧
        ∀ sid, sid ∉ ids →
          intelLookup (runBatchesFrom g (ids.map fun x => (x, ([] : List IntelItem)))).intelMap sid
            = intelLookup g.intelMap sid := by
  intro ids
  induction ids with
  | nil =>
    intro g _ _ _
    exact ⟨[], by simp [runBatchesFrom], rfl, fun sid _ => rfl⟩
  | cons x rest ih =>
    intro g hnd hfresh hlen
    have hx : hasSession g.seenMap x = false := hfresh x (List.mem_cons_self _ _)
    have hglen : g.seenMap.length ≤ MAX_TRACKED_SESSIONS := by
      simp only [List.length_cons] at hlen
      omega
    have hev : evictSeen g.seenMap = g.seenMap := evictSeen_eq_self _ hglen
    have hm1 : setdefaultSeen g.seenMap x = g.seenMap ++ [(x, [])] := by
      unfold setdefaultSeen
      rw [if_neg (by rw [hx]; exact Bool.false_ne_true)]
    have hlk : seenLookup (g.seenMap ++ [(x, [])]) x = [] := seenLookup_append_fresh _ _ _ hx
    have hstep : processBatch g x [] = ⟨g.seenMap ++ [(x, [])], intelExtend g.intelMap x []⟩ := by
      simp only [processBatch, dedupIntel, hev, hm1, hlk, dedupCore]
      rw [storeSeen_fresh _ _ _ _ hx]
    have hnd' := (List.nodup_cons.mp hnd).2
    have hxrest := (List.nodup_cons.mp hnd).1
    have hfresh' : ∀ y ∈ rest, hasSession (processBatch g x []).seenMap y = false := by
      intro y hy
      rw [hstep]
      show hasSession (g.seenMap ++ [(x, [])]) y = false
      rw [hasSession_append_single, hfresh y (List.mem_cons_of_mem _ hy),
          beq_eq_false_iff_ne.mpr (fun he : x = y => hxrest (he ▸ hy))]
      rfl
    have hlen' : (processBatch g x []).seenMap.length + rest.length
        ≤ MAX_TRACKED_SESSIONS + 1 := by
      rw [hstep]
      show (g.seenMap ++ [(x, [])]).length + rest.length ≤ MAX_TRACKED_SESSIONS + 1
      simp only [List.length_append, List.length_cons, List.length_nil] at hlen ⊢
      omega
    obtain ⟨tail, h1, h2, h3⟩ := ih (processBatch g x []) hnd' hfresh' hlen'
    refine ⟨(x, []) :: tail, ?_, ?_, ?_⟩
    · show (runBatchesFrom (processBatch g x []) (rest.map fun y => (y, ([] : List IntelItem)))).seenMap
          = g.seenMap ++ (x, []) :: tail
      rw [h1, hstep]
      simp
    · simp [h2]
    · intro sid hsid
      have hsx : sid ≠ x := fun he => hsid (he ▸ List.mem_cons_self _ _)
      have hsrest : sid ∉ rest := fun hmem => hsid (List.mem_cons_of_mem _ hmem)
      show intelLookup (runBatchesFrom (processBatch g x [])
            (rest.map fun y => (y, ([] : List IntelItem)))).intelMap sid
          = intelLookup g.intelMap sid
      rw [h3 sid hsrest, hstep]
      exact intelLookup_extend_ne g.intelMap x [] sid hsx

theorem crowd_props (g : GState) (ks : List String)
    (hseen : g.seenMap = [("a", ks)]) :
    ∃ tail : SeenMap,
      (runBatchesFrom g foreignReqs).seenMap = ("a", ks) :: tail ∧
        tail.map Prod.fst = foreignIds ∧
        intelLookup (runBatchesFrom g foreignReqs).intelMap "a" = intelLookup g.intelMap "a" := by
  have hfresh : ∀ x ∈ foreignIds, hasSession g.seenMap x = false := by
    intro x hx
    rw [hseen]
    have hxa : ¬("a" = x) := fun he => a_notin_foreignIds (he ▸ hx)
    simp [hasSession, hxa]
  have hlen : g.seenMap.length + foreignIds.length ≤ MAX_TRACKED_SESSIONS + 1 := by
    rw [hseen, foreignIds_length]
    simp only [List.length_cons, List.length_nil]
    omega
  obtain ⟨tail, h1, h2, h3⟩ := runFrom_fresh foreignIds g foreignIds_nodup hfresh hlen
  refine ⟨tail, ?_, h2, h3 "a" a_notin_foreignIds⟩
  show (runBatchesFrom g (foreignIds.map fun x => (x, ([] : List IntelItem)))).seenMap
      = ("a", ks) :: tail
  rw [h1, hseen]
  rfl

theorem evicted_step (g : GState) (ks : List String) (tail : SeenMap) (b : List IntelItem)
    (hseen : g.seenMap = ("a", ks) :: tail)
    (htail : tail.map Prod.fst = foreignIds) :
    intelLookup (processBatch g "a" b).intelMap "a"
      = intelLookup g.intelMap "a" ++ (dedupCore [] b).2 := by
  have htlen : tail.length = MAX_TRACKED_SESSIONS := by
    rw [← List.length_map tail Prod.fst, htail, foreignIds_length]
  have hev : evictSeen g.seenMap = tail := by
    unfold evictSeen
    rw [hseen]
    rw [if_pos (by simp [htlen])]
    simp [htlen]
  have hafresh : hasSession tail "a" = false := by
    cases hb : hasSession tail "a" with
    | false => rfl
    | true => exact absurd (htail ▸ (hasSession_iff tail "a").mp hb) a_notin_foreignIds
  have hm1 : setdefaultSeen tail "a" = tail ++ [("a", [])] := by
    unfold setdefaultSeen
    rw [if_neg (by rw [hafresh]; exact Bool.false_ne_true)]
  have hlk : seenLookup (tail ++ [("a", [])]) "a" = [] := seenLookup_append_fresh _ _ _ hafresh
  simp only [processBatch, dedupIntel, hev, hm1, hlk]
  rw [intelLookup_extend_self]

theorem processBatch_init_a :
    processBatch gInit "a" [itX] = ⟨[("a", [itemKey itX])], [("a", [itX])]⟩ := by
  with_unfolding_all decide

theorem runBatches_evictReqs_eq :
    runBatches evictReqs
      = processBatch (runBatchesFrom (processBatch gInit "a" [itX]) foreignReqs) "a" [itX] := by
  unfold runBatches evictReqs runBatchesFrom
  rw [List.cons_append, List.foldl_cons, List.foldl_append]
  rfl

theorem c1_scenario_intel :
    intelLookup (runBatches evictReqs).intelMap "a" = [itX, itX] := by
  obtain ⟨tail, h1, h2, h3⟩ :=
    crowd_props (processBatch gInit "a" [itX]) [itemKey itX] (by rw [processBatch_init_a])
  rw [runBatches_evictReqs_eq,
      evicted_step (runBatchesFrom (processBatch gInit "a" [itX]) foreignReqs)
        [itemKey itX] tail [itX] h1 h2, h3, processBatch_init_a]
  with_unfolding_all decide

/-- C1 counterexample: the dedup invariant is violated by key-set eviction:
after session "a" extracts an item and five hundred further sessions are
tracked, `_dedup_intel` evicts "a"'s seen-key set while its intelligence
list persists, so re-extracting the same item appends a second copy with the
same (type, lowercased value) key. -/
theorem c1_counterexample :
    ¬ (intelLookup (runBatches evictReqs).intelMap "a").Pairwise
        (fun x y => itemKey x ≠ itemKey y) := by
  rw [c1_scenario_intel]
  intro hp
  exact (List.pairwise_cons.mp hp).1 itX (by simp) rfl

theorem replayOnce_eq :
    replayOnce = ⟨[("a", [itemKey itX])], [("a", [itX])]⟩ := by
  with_unfolding_all decide

theorem replay_safety_batch : (dedupCore [] (safetyExtract replayMsg)).2 = [itX] := by
  with_unfolding_all decide

/-- C2 counterexample: replaying the same transcript is not idempotent once
the session's dedup key set has been evicted: after the first pass for
session "a" and five hundred further tracked sessions, the second pass over
the very same transcript re-adds the already-recorded item, growing the
deduplicated intelligence set from one item to two. -/
theorem c2_counterexample :
    (intelLookup replayCrowded.intelMap "a").length
      < (intelLookup replayTwice.intelMap "a").length := by
  obtain ⟨tail, h1, h2, h3⟩ := crowd_props replayOnce [itemKey itX] (by rw [replayOnce_eq])
  have hcrowd : intelLookup replayCrowded.intelMap "a" = [itX] := by
    show intelLookup (runBatchesFrom replayOnce foreignReqs).intelMap "a" = [itX]
    rw [h3, replayOnce_eq]
    with_unfolding_all decide
  have htwice : intelLookup replayTwice.intelMap "a" = [itX, itX] := by
    show intelLookup (extractionPass replayCrowded "a" replayMsg []).intelMap "a" = [itX, itX]
    have hpass : extractionPass replayCrowded "a" replayMsg []
        = processBatch replayCrowded "a" (safetyExtract replayMsg) := rfl
    rw [hpass, evicted_step replayCrowded [itemKey itX] tail (safetyExtract replayMsg) h1 h2,
        hcrowd, replay_safety_batch]
    rfl
  rw [hcrowd, htwice]
  decide

/-! ## C1 amended: no duplicate keys while at most 500 sessions are tracked -/

theorem toFinset_card_le_of_subset {l₁ l₂ : List String} (h : l₁ ⊆ l₂) :
    l₁.toFinset.card ≤ l₂.toFinset.card :=
  Finset.card_le_card fun a ha => List.mem_toFinset.mpr (h (List.mem_toFinset.mp ha))

theorem runFrom_nodup : ∀ (reqs : List (String × List IntelItem)) (g : GState),
    (g.seenMap.map Prod.fst).Nodup →
    ((g.seenMap.map Prod.fst ++ reqs.map Prod.fst).toFinset.card ≤ MAX_TRACKED_SESSIONS) →
    (∀ sid, ((intelLookup g.intelMap sid).map itemKey).Nodup ∧
        ∀ it ∈ intelLookup g.intelMap sid, itemKey it ∈ seenLookup g.seenMap sid) →
    ∀ sid, ((intelLookup (runBatchesFrom g reqs).intelMap sid).map itemKey).Nodup := by
  intro reqs
  induction reqs with
  | nil => intro g _ _ hinv sid; exact (hinv sid).1
  | cons r rest ih =>
    intro g hnd hcard hinv sid
    obtain ⟨x, b⟩ := r
    have hglen : g.seenMap.length ≤ MAX_TRACKED_SESSIONS := by
      calc g.seenMap.length = (g.seenMap.map Prod.fst).length := (List.length_map _ _).symm
        _ = (g.seenMap.map Prod.fst).toFinset.card := (List.toFinset_card_of_nodup hnd).symm
        _ ≤ ((g.seenMap.map Prod.fst ++ ((x, b) :: rest).map Prod.fst)).toFinset.card :=
            toFinset_card_le_of_subset (fun a ha => List.mem_append_left _ ha)
        _ ≤ MAX_TRACKED_SESSIONS := hcard
    have hev : evictSeen g.seenMap = g.seenMap := evictSeen_eq_self _ hglen
    have hpb : processBatch g x b
        = ⟨storeSeen (setdefaultSeen g.seenMap x) x
              (dedupCore (seenLookup g.seenMap x) b).1,
           intelExtend g.intelMap x (dedupCore (seenLookup g.seenMap x) b).2⟩ := by
      simp only [processBatch, dedupIntel, hev, seenLookup_setdefault]
    have hfst' : (processBatch g x b).seenMap.map Prod.fst
        = if hasSession g.seenMap x then g.seenMap.map Prod.fst
          else g.seenMap.map Prod.fst ++ [x] := by
      rw [hpb]
      show (storeSeen (setdefaultSeen g.seenMap x) x _).map Prod.fst = _
      rw [storeSeen_fst]
      unfold setdefaultSeen
      split_ifs with hs
      · rfl
      · simp
    have hnd' : ((processBatch g x b).seenMap.map Prod.fst).Nodup := by
      rw [hfst']
      split_ifs with hs
      · exact hnd
      · have hxnot : x ∉ g.seenMap.map Prod.fst := by
          intro hmem
          exact hs ((hasSession_iff _ _).mpr hmem)
        simp only [List.nodup_append, List.nodup_cons, List.nodup_nil]
        exact ⟨hnd, by simp, by simpa [List.disjoint_singleton] using hxnot⟩
    have hcard' : ((processBatch g x b).seenMap.map Prod.fst ++ rest.map Prod.fst).toFinset.card
        ≤ MAX_TRACKED_SESSIONS := by
      refine le_trans (toFinset_card_le_of_subset ?_) hcard
      intro a ha
      rcases List.mem_append.mp ha with hin | hin
      · rw [hfst'] at hin
        by_cases hs : hasSession g.seenMap x = true
        · rw [if_pos hs] at hin
          exact List.mem_append_left _ hin
        · rw [if_neg hs] at hin
          rcases List.mem_append.mp hin with hin' | hin'
          · exact List.mem_append_left _ hin'
          · rcases List.mem_singleton.mp hin' with rfl
            exact List.mem_append_right _ (by simp)
      · refine List.mem_append_right _ ?_
        rw [List.map_cons]
        exact List.mem_cons_of_mem _ hin
    have hinv' : ∀ sid', ((intelLookup (processBatch g x b).intelMap sid').map itemKey).Nodup ∧
        ∀ it ∈ intelLookup (processBatch g x b).intelMap sid',
          itemKey it ∈ seenLookup (processBatch g x b).seenMap sid' := by
      intro sid'
      by_cases hsx : sid' = x
      · subst hsx
        have hm1has : hasSession (setdefaultSeen g.seenMap sid') sid' = true :=
          hasSession_setdefault_self _ _
        have hseen' : seenLookup (processBatch g sid' b).seenMap sid'
            = (dedupCore (seenLookup g.seenMap sid') b).1 := by
          rw [hpb]
          exact storeSeen_lookup_self _ _ _ hm1has
        have hintel' : intelLookup (processBatch g sid' b).intelMap sid'
            = intelLookup g.intelMap sid' ++ (dedupCore (seenLookup g.seenMap sid') b).2 := by
          rw [hpb]
          exact intelLookup_extend_self _ _ _
        constructor
        · rw [hintel', List.map_append]
          rw [List.nodup_append]
          refine ⟨(hinv sid').1, dedupCore_out_nodup b _, ?_⟩
          intro k hk1 hk2
          rcases List.mem_map.mp hk1 with ⟨it1, hit1, rfl⟩
          rcases List.mem_map.mp hk2 with ⟨it2, hit2, hkey⟩
          exact dedupCore_out_fresh b _ it2 hit2 (hkey ▸ (hinv sid').2 it1 hit1)
        · intro it hit
          rw [hintel'] at hit
          rw [hseen']
          rcases List.mem_append.mp hit with hold | hnew
          · exact dedupCore_seen_mono b _ ((hinv sid').2 it hold)
          · exact dedupCore_out_mem b _ it hnew
      · have hseen' : seenLookup (processBatch g x b).seenMap sid' = seenLookup g.seenMap sid' := by
          rw [hpb]
          show seenLookup (storeSeen (setdefaultSeen g.seenMap x) x _) sid' = _
          rw [storeSeen_lookup_ne _ _ _ _ hsx, seenLookup_setdefault]
        have hintel' : intelLookup (processBatch g x b).intelMap sid'
            = intelLookup g.intelMap sid' := by
          rw [hpb]
          exact intelLookup_extend_ne _ _ _ _ hsx
        rw [hseen', hintel']
        exact hinv sid'
    exact ih (processBatch g x b) hnd' hcard' hinv' sid

/-- C1 (amended): the dedup invariant holds whenever at most the
500-session tracking cap of distinct session ids is processed (so the
eviction branch of `_dedup_intel` never fires): every item appended by
extraction is first checked against the per-session seen-key set, and no
two items in any session's accumulated intelligence share the same
(type, lowercased value) key. -/
theorem c1_dedup_nodup (reqs : List (String × List IntelItem)) (sid : String)
    (h : (reqs.map Prod.fst).toFinset.card ≤ MAX_TRACKED_SESSIONS) :
    ((intelLookup (runBatches reqs).intelMap sid).map itemKey).Nodup := by
  apply runFrom_nodup reqs gInit (by simp [gInit]) (by simpa [gInit] using h)
  intro sid'
  constructor
  · simp [gInit, intelLookup]
  · intro it hit
    simp [gInit, intelLookup] at hit

theorem c1_dedup_nodup_witness :
    ((([("a", [itX]), ("a", [itX]), ("b", [itX])] :
          List (String × List IntelItem)).map Prod.fst).toFinset.card
        ≤ MAX_TRACKED_SESSIONS) ∧
      ((intelLookup (runBatches [("a", [itX]), ("a", [itX]), ("b", [itX])]).intelMap "a").map
          itemKey).Nodup :=
  ⟨by decide, c1_dedup_nodup _ "a" (by decide)⟩

/-! ## C7 and C8: safety-net exclusion rules -/

theorem mem_foldl_append {α β : Type} (f : β → List α) :
    ∀ (l : List β) (init : List α) (x : α),
      (x ∈ l.foldl (fun acc p => acc ++ f p) init ↔ x ∈ init ∨ ∃ p ∈ l, x ∈ f p) := by
  intro l
  induction l with
  | nil => intro init x; simp
  | cons p rest ih =>
    intro init x
    rw [List.foldl_cons, ih]
    constructor
    · rintro (hmem | ⟨q, hq, hx⟩)
      · rcases List.mem_append.mp hmem with h1 | h2
        · exact Or.inl h1
        · exact Or.inr ⟨p, List.mem_cons_self _ _, h2⟩
      · exact Or.inr ⟨q, List.mem_cons_of_mem _ hq, hx⟩
    · rintro (h1 | ⟨q, hq, hx⟩)
      · exact Or.inl (List.mem_append_left _ h1)
      · rcases List.mem_cons.mp hq with rfl | hq'
        · exact Or.inl (List.mem_append_right _ hx)
        · exact Or.inr ⟨q, hq', hx⟩

theorem safetyItem_type (s : List Char) (tp : String) (m : Nat × Nat) (it : IntelItem)
    (h : safetyItem s tp m = some it) : it.type = tp ∧ safetyKeep s tp m = true := by
  unfold safetyItem at h
  split_ifs at h with hk
  · cases h
    exact ⟨rfl, hk⟩

theorem safetyExtract_mem (msg : String) (it : IntelItem) (h : it ∈ safetyExtract msg) :
    ∃ pat ∈ SAFETY_PATTERNS, ∃ m ∈ findIter pat.2 msg.toList,
      safetyItem msg.toList pat.1 m = some it := by
  unfold safetyExtract at h
  rcases (mem_foldl_append _ SAFETY_PATTERNS [] it).mp h with h0 | ⟨pat, hpat, hmem⟩
  · simp at h0
  · rcases List.mem_filterMap.mp hmem with ⟨m, hm, hsome⟩
    exact ⟨pat, hpat, m, hm, hsome⟩

theorem safetyExtract_upi_excluded (msg : String) (it : IntelItem)
    (hit : it ∈ safetyExtract msg) (htype : it.type = "upi") :
    (afterLastAt it.value.toList).contains '.' = false ∧
      ((emailMatchesOf msg.toList).any fun em => (lowerL it.value.toList).isPrefixOf em) = false := by
  obtain ⟨pat, hpat, m, _, hsome⟩ := safetyExtract_mem msg it hit
  obtain ⟨hty, hkeep⟩ := safetyItem_type _ _ _ _ hsome
  have hup : pat.1 = "upi" := by rw [← hty, htype]
  rw [hup] at hkeep hsome
  unfold safetyKeep at hkeep
  rw [if_pos rfl] at hkeep
  have hval : it.value = String.mk (pyStrip (sliceStr msg.toList m.1 m.2)) := by
    unfold safetyItem at hsome
    split_ifs at hsome
    cases hsome
    rfl
  split_ifs at hkeep with hdot
  rw [Bool.not_eq_true'] at hkeep
  rw [Bool.not_eq_true] at hdot
  constructor
  · rw [hval]
    exact hdot
  · rw [hval]
    exact hkeep

theorem safetyExtract_bank_excluded (msg : String) (it : IntelItem)
    (hit : it ∈ safetyExtract msg) (htype : it.type = "bank_account") :
    ((phoneDigitsOf msg.toList).contains (lastN 10 (digitsOf it.value.toList))) = false := by
  obtain ⟨pat, hpat, m, _, hsome⟩ := safetyExtract_mem msg it hit
  obtain ⟨hty, hkeep⟩ := safetyItem_type _ _ _ _ hsome
  have hba : pat.1 = "bank_account" := by rw [← hty, htype]
  rw [hba] at hkeep hsome
  unfold safetyKeep at hkeep
  rw [if_neg (by decide), if_pos rfl] at hkeep
  have hval : it.value = String.mk (pyStrip (sliceStr msg.toList m.1 m.2)) := by
    unfold safetyItem at hsome
    split_ifs at hsome
    cases hsome
    rfl
  split_ifs at hkeep with hph
  rw [Bool.not_eq_true] at hph
  rw [hval]
  exact hph

/-- C7: a message containing both "a@b.com" and a bare "a@b" token records
exactly one e-mail item ("a@b.com") and no payment-handle item; and in
general every UPI item the safety net keeps has no dot in its domain part
and is not a prefix of any e-mail found in the message. -/
theorem c7_email_not_upi :
    (dedupCore [] (safetyExtract "reach me at a@b.com or a@b")).2
        = [⟨"email", "a@b.com", 3 / 4⟩] ∧
      (∀ msg : String, ∀ it ∈ safetyExtract msg, it.type = "upi" →
        (afterLastAt it.value.toList).contains '.' = false ∧
          ((emailMatchesOf msg.toList).any fun em =>
              (lowerL it.value.toList).isPrefixOf em) = false) :=
  ⟨by with_unfolding_all decide,
   fun msg it hit htype => safetyExtract_upi_excluded msg it hit htype⟩

/-- C8: the message "send the OTP to unblock account 1234567890123456"
yields exactly one item, the bank-account 1234567890123456, and no phone
item for its trailing ten digits; and in general every bank-account item the
safety net keeps has last ten digits different from every phone match of
the message. -/
theorem c8_account_not_phone :
    (dedupCore [] (safetyExtract "send the OTP to unblock account 1234567890123456")).2
        = [⟨"bank_account", "1234567890123456", 3 / 4⟩] ∧
      (∀ msg : String, ∀ it ∈ safetyExtract msg, it.type = "bank_account" →
        ((phoneDigitsOf msg.toList).contains (lastN 10 (digitsOf it.value.toList))) = false) :=
  ⟨by with_unfolding_all decide,
   fun msg it hit htype => safetyExtract_bank_excluded msg it hit htype⟩

theorem c7_email_not_upi_witness :
    (⟨"upi", "user@paytm", 3 / 4⟩ : IntelItem) ∈ safetyExtract "pay to user@paytm" ∧
      (⟨"upi", "user@paytm", 3 / 4⟩ : IntelItem).type = "upi" ∧
      ((afterLastAt ("user@paytm").toList).contains '.' = false ∧
        ((emailMatchesOf ("pay to user@paytm").toList).any fun em =>
            (lowerL ("user@paytm").toList).isPrefixOf em) = false) :=
  ⟨by with_unfolding_all decide, rfl,
   c7_email_not_upi.2 "pay to user@paytm" ⟨"upi", "user@paytm", 3 / 4⟩
     (by with_unfolding_all decide) rfl⟩

theorem c8_account_not_phone_witness :
    (⟨"bank_account", "1234567890123456", 3 / 4⟩ : IntelItem)
        ∈ safetyExtract "send the OTP to unblock account 1234567890123456" ∧
      (⟨"bank_account", "1234567890123456", 3 / 4⟩ : IntelItem).type = "bank_account" ∧
      ((phoneDigitsOf ("send the OTP to unblock account 1234567890123456").toList).contains
          (lastN 10 (digitsOf ("1234567890123456").toList))) = false :=
  ⟨by with_unfolding_all decide, rfl,
   c8_account_not_phone.2 "send the OTP to unblock account 1234567890123456"
     ⟨"bank_account", "1234567890123456", 3 / 4⟩ (by with_unfolding_all decide) rfl⟩

/-! ## C5: no multi-category override in the classifier -/

/-- C5 counterexample: the message "dear customer bit.ly rs 1 lakh" fires
three distinct indicator categories (authority, lottery, phishing), yet its
confidence is 0.185, well below the claimed 0.50 floor — `analyze` applies
no multi-category override. -/
theorem c5_counterexample :
    3 ≤ (firedCategories "dear customer bit.ly rs 1 lakh").length ∧
      (analyze "dear customer bit.ly rs 1 lakh" []).confidence < 1 / 2 := by
  with_unfolding_all decide

/-- C5 (amended): the classifier applies no category-count adjustment at
all: its confidence is exactly the clamped, 4-decimal-rounded weighted sum
(pattern 0.50, keyword 0.25, behavioral 0.15, history 0.10) with only the
1.3 urgency boost above the 0.15 floor — there is no 0.50 floor for three
or more fired categories and no 1.15 multiplier for exactly two, and a
three-category message can score 0.185. -/
theorem c5_no_override :
    (∀ (message : String) (history : List String),
        (analyze message history).confidence = confidenceNoOverride message history) ∧
      3 ≤ (firedCategories "dear customer bit.ly rs 1 lakh").length ∧
      (analyze "dear customer bit.ly rs 1 lakh" []).confidence = 37 / 200 :=
  ⟨fun _ _ => rfl, by with_unfolding_all decide, by with_unfolding_all decide⟩

/-! ## C9: canned-reply fallback under total provider failure -/

theorem runChain_all_rateLimit (callStart : ℚ) :
    ∀ (chain : List (ChainEntry × AttemptSpec)) (clock last429 : ℚ),
      (∀ ca ∈ chain, ca.2.outcome = AttemptOutcome.rateLimit) →
      (runChain callStart chain clock last429).2 = false := by
  intro chain
  induction chain with
  | nil => intro clock last429 _; rfl
  | cons ca rest ih =>
    intro clock last429 hall
    obtain ⟨e, a⟩ := ca
    rw [runChain]
    split_ifs with hdl
    · rfl
    · have ha : a.outcome = AttemptOutcome.rateLimit := hall (e, a) (List.mem_cons_self _ _)
      rw [ha]
      exact ih _ _ fun ca hca => hall ca (List.mem_cons_of_mem _ hca)


theorem contains_true_iff (l : List String) (a : String) : l.contains a = true ↔ a ∈ l :=
  List.elem_iff

theorem fallbackPool_subset (hist : List HMsg) :
    fallbackPool hist ⊆ FALLBACK_EARLY ++ FALLBACK_MID ++ FALLBACK_LATE := by
  unfold fallbackPool
  dsimp only
  split_ifs <;> intro r hr
  · exact List.mem_append_left _ (List.mem_append_left _ hr)
  · exact List.mem_append_left _ (List.mem_append_right _ hr)
  · exact List.mem_append_right _ hr

theorem fallbackPool_ne_nil (hist : List HMsg) : fallbackPool hist ≠ [] := by
  unfold fallbackPool
  dsimp only
  split_ifs <;> decide

theorem fallbackCandidates_ne_nil (hist : List HMsg) : fallbackCandidates hist ≠ [] := by
  unfold fallbackCandidates
  dsimp only
  split_ifs with h1 h2
  · exact fallbackPool_ne_nil hist
  · exact fun hc => h2 (by rw [hc]; rfl)
  · exact fun hc => h1 (by rw [hc]; rfl)

theorem fallbackCandidates_subset (hist : List HMsg) :
    fallbackCandidates hist ⊆ FALLBACK_EARLY ++ FALLBACK_MID ++ FALLBACK_LATE := by
  unfold fallbackCandidates
  dsimp only
  split_ifs with h1 h2 <;> intro r hr
  · exact fallbackPool_subset hist hr
  · exact List.mem_of_mem_filter hr
  · exact fallbackPool_subset hist (List.mem_of_mem_filter hr)

theorem fallbackCandidates_of_unused (hist : List HMsg)
    (h : ∃ r ∈ fallbackPool hist, r ∉ prevAgentTexts hist) :
    fallbackCandidates hist
      = (fallbackPool hist).filter fun r => !(prevAgentTexts hist).contains r := by
  obtain ⟨r, hr, hnot⟩ := h
  have hmem : r ∈ (fallbackPool hist).filter fun r => !(prevAgentTexts hist).contains r := by
    rw [List.mem_filter]
    refine ⟨hr, ?_⟩
    rw [Bool.not_eq_true']
    cases hb : (prevAgentTexts hist).contains r
    · rfl
    · exact absurd ((contains_true_iff _ _).mp hb) hnot
  have hne :
      ¬(((fallbackPool hist).filter fun r => !(prevAgentTexts hist).contains r).isEmpty
        = true) := by
    intro hb
    rw [List.isEmpty_iff] at hb
    rw [hb] at hmem
    exact List.not_mem_nil _ hmem
  unfold fallbackCandidates
  dsimp only
  rw [if_neg hne, if_neg hne]

theorem pools_all_qm :
    ∀ r ∈ FALLBACK_EARLY ++ FALLBACK_MID ++ FALLBACK_LATE, endsWithQm r = true := by
  decide

theorem ruleBasedFallback_mem (msg : String) (hist : List HMsg) (pick : Nat) :
    ruleBasedFallback msg hist pick ∈ fallbackCandidates hist := by
  unfold ruleBasedFallback
  have hlen : 0 < (fallbackCandidates hist).length :=
    List.length_pos.mpr (fallbackCandidates_ne_nil hist)
  have hidx : pick % (fallbackCandidates hist).length < (fallbackCandidates hist).length :=
    Nat.mod_lt _ hlen
  rw [List.getD_eq_getElem _ _ hidx]
  exact List.getElem_mem _

/-- C9 (amended): when every fallback-chain attempt fails with a rate
limit, the loop reports failure and the turn degrades to the deterministic
canned reply, which always ends in a question mark and is drawn from the
conversation-phase pools; whenever some phase-pool line is still unused,
the reply also excludes every line the agent already used earlier in the
conversation — in particular it differs from the previous turn's reply.
Only when every canned line has been used may a line repeat. -/
theorem c9_fallback_reply (msg : String) (hist : List HMsg) (pick : Nat)
    (callStart : ℚ) (chain : List (ChainEntry × AttemptSpec))
    (hrl : ∀ ca ∈ chain, ca.2.outcome = AttemptOutcome.rateLimit)
    (hunused : ∃ r ∈ fallbackPool hist, r ∉ prevAgentTexts hist) :
    (runGenerate callStart chain).2 = false ∧
      endsWithQm (ruleBasedFallback msg hist pick) = true ∧
      ruleBasedFallback msg hist pick ∈ fallbackPool hist ∧
      ruleBasedFallback msg hist pick ∉ prevAgentTexts hist ∧
      ∀ t ∈ prevAgentTexts hist, ruleBasedFallback msg hist pick ≠ t := by
  have hmem := ruleBasedFallback_mem msg hist pick
  rw [fallbackCandidates_of_unused hist hunused] at hmem
  rw [List.mem_filter] at hmem
  have hnotprev : ruleBasedFallback msg hist pick ∉ prevAgentTexts hist := by
    intro hin
    have h2 := hmem.2
    rw [Bool.not_eq_true'] at h2
    rw [(contains_true_iff _ _).mpr hin] at h2
    exact Bool.noConfusion h2
  refine ⟨runChain_all_rateLimit callStart chain callStart 0 hrl, ?_, hmem.1, hnotprev,
    fun t ht he => hnotprev (he ▸ ht)⟩
  exact pools_all_qm _ (fallbackPool_subset hist hmem.1)

theorem c9_fallback_reply_witness :
    (∀ ca ∈ ([(⟨"llama-3.1-8b-instant", 12⟩, ⟨5, AttemptOutcome.rateLimit⟩)] :
        List (ChainEntry × AttemptSpec)), ca.2.outcome = AttemptOutcome.rateLimit) ∧
      (∃ r ∈ fallbackPool [⟨"scammer", "your account is blocked"⟩],
          r ∉ prevAgentTexts [⟨"scammer", "your account is blocked"⟩]) ∧
      ((runGenerate 1 [(⟨"llama-3.1-8b-instant", 12⟩, ⟨5, AttemptOutcome.rateLimit⟩)]).2
          = false ∧
        endsWithQm (ruleBasedFallback "hi" [⟨"scammer", "your account is blocked"⟩] 0) = true ∧
        ruleBasedFallback "hi" [⟨"scammer", "your account is blocked"⟩] 0
            ∈ fallbackPool [⟨"scammer", "your account is blocked"⟩] ∧
        ruleBasedFallback "hi" [⟨"scammer", "your account is blocked"⟩] 0
            ∉ prevAgentTexts [⟨"scammer", "your account is blocked"⟩] ∧
        ∀ t ∈ prevAgentTexts [⟨"scammer", "your account is blocked"⟩],
          ruleBasedFallback "hi" [⟨"scammer", "your account is blocked"⟩] 0 ≠ t) :=
  ⟨by decide, by decide,
   c9_fallback_reply "hi" [⟨"scammer", "your account is blocked"⟩] 0 1
     [(⟨"llama-3.1-8b-instant", 12⟩, ⟨5, AttemptOutcome.rateLimit⟩)]
     (by decide) (by decide)⟩

/-- C9 counterexample: once the agent has used every canned line, the
fallback's absolute-last-resort branch returns a line from the phase pool
even though the agent already used it earlier in the conversation, so the
used-line exclusion (and with it the no-repeat guarantee) fails. -/
theorem c9_counterexample :
    ruleBasedFallback "hello" exhaustedHistory 0 ∈ prevAgentTexts exhaustedHistory := by
  decide
